import Mathlib

/-!
# sngrep: option store (`src/option.c`) and SIP call/message model (`src/sip.h`)

A shallow embedding of the configuration store of `option.c` and of the call and
message model declared in `sip.h`, with the properties of the specification
stated and proved over it.

Conventions of the embedding:

* a C string is a `String`, one `Char` per byte, without its terminating NUL;
  a pointer that may be `NULL` is an `Option`;
* the global array `options[1024]` with its counter `optscnt` is the list of its
  first `optscnt` elements, so `optscnt` is the length of that list;
* a write past the end of a fixed-size C array has no defined behaviour: the
  embedded function returns `none` there.
-/

namespace Sngrep

/-! ## C library: `tolower`, `strcasecmp` -/

/-- The C library's `tolower` in the "C" locale: only `A`..`Z` are mapped. -/
def tolower (c : Char) : Char :=
  if 65 ≤ c.toNat ∧ c.toNat ≤ 90 then Char.ofNat (c.toNat + 32) else c

/-- The comparison loop of `strcasecmp` over the bytes of both strings. POSIX fixes
only the sign of the result; when one string ends first the result is `-1` or `1`. -/
def strcasecmp_bytes : List Char → List Char → Int
  | [], [] => 0
  | [], _ :: _ => -1
  | _ :: _, [] => 1
  | a :: as, b :: bs =>
    if tolower a = tolower b then strcasecmp_bytes as bs
    else (tolower a).toNat - (tolower b).toNat

/-- The C library's `strcasecmp`: zero exactly when the strings agree ignoring ASCII case. -/
def strcasecmp (a b : String) : Int :=
  strcasecmp_bytes a.data b.data

/-! ## `option.c` -/

/-- The two entry kinds of `option.h` that `option.c` writes into `options[i].type`. -/
inductive option_type
  | SETTING
  | IGNORE
  deriving DecidableEq

/-- One element of the global `options` array (`option_opt_t`). -/
structure option_opt_t where
  type : option_type
  opt : String
  value : String
  deriving DecidableEq

/-- Size of the global array `option_opt_t options[1024]`. -/
def OPTIONS_SIZE : Nat := 1024

/-- The global `optscnt`: the number of used elements of `options`. -/
def optscnt (options : List option_opt_t) : Nat := options.length

/-- `get_option_value`: the value of the first entry whose name equals `opt`
ignoring case, `none` (NULL) when the loop finds none. -/
def get_option_value : List option_opt_t → String → Option String
  | [], _ => none
  | o :: rest, opt =>
    if strcasecmp opt o.opt = 0 then some o.value else get_option_value rest opt

/-- The `else` branch of `set_option_value`: every entry whose name equals `opt`
ignoring case gets a copy of `value`. -/
def replace_values (options : List option_opt_t) (opt value : String) : List option_opt_t :=
  options.map fun o => if strcasecmp opt o.opt = 0 then { o with value := value } else o

/-- `set_option_value`: nothing happens when `opt` or `value` is NULL; a name without
a value is appended as a SETTING at index `optscnt`; otherwise the values of the
matching entries are replaced. -/
def set_option_value (options : List option_opt_t) (opt value : Option String) :
    Option (List option_opt_t) :=
  match opt, value with
  | some opt, some value =>
    match get_option_value options opt with
    | none =>
      if optscnt options < OPTIONS_SIZE then
        some (options ++ [{ type := .SETTING, opt := opt, value := value }])
      else none
    | some _ => some (replace_values options opt value)
  | _, _ => some options

/-- `is_option_enabled`: 1 when the option has the value "on" or "1". -/
def is_option_enabled (options : List option_opt_t) (opt : String) : Int :=
  match get_option_value options opt with
  | some value =>
    if strcasecmp value "on" = 0 then 1
    else if strcasecmp value "1" = 0 then 1
    else 0
  | none => 0

/-- `is_option_disabled`: 1 when the option has the value "off" or "0". -/
def is_option_disabled (options : List option_opt_t) (opt : String) : Int :=
  match get_option_value options opt with
  | some value =>
    if strcasecmp value "off" = 0 then 1
    else if strcasecmp value "0" = 0 then 1
    else 0
  | none => 0

/-- `set_ignore_value`: appends an IGNORE entry at index `optscnt`. -/
def set_ignore_value (options : List option_opt_t) (opt value : String) :
    Option (List option_opt_t) :=
  if optscnt options < OPTIONS_SIZE then
    some (options ++ [{ type := .IGNORE, opt := opt, value := value }])
  else none

/-- `is_option_value`: the C negation `!strcasecmp(value, expected)` when the option
has a value, 0 otherwise. -/
def is_option_value (options : List option_opt_t) (opt expected : String) : Int :=
  match get_option_value options opt with
  | some value => if strcasecmp value expected = 0 then 1 else 0
  | none => 0

/-- `is_ignored_value`: 1 at the first entry whose name equals `field` and whose value
equals `fvalue`, both ignoring case; 0 when the loop ends. -/
def is_ignored_value : List option_opt_t → String → String → Int
  | [], _, _ => 0
  | o :: rest, field, fvalue =>
    if strcasecmp o.opt field = 0 ∧ strcasecmp o.value fvalue = 0 then 1
    else is_ignored_value rest field fvalue

/-- `toggle_option`. -/
def toggle_option (options : List option_opt_t) (option : String) :
    Option (List option_opt_t) :=
  set_option_value options (some option)
    (some (if is_option_enabled options option ≠ 0 then "off" else "on"))

/-- One line of a configuration file as the two `regexec` calls of `read_options`
classify it: a comment or empty line, a line with the three captures of the setting
expression, or a line that matches neither expression. -/
inductive conf_line
  | blank
  | setting (type option value : String)
  | other
  deriving DecidableEq

/-- The body of the `while` loop of `read_options` for one line. -/
def read_line (options : List option_opt_t) : conf_line → Option (List option_opt_t)
  | .blank => some options
  | .other => some options
  | .setting type option value =>
    if strcasecmp type "set" = 0 then set_option_value options (some option) (some value)
    else if strcasecmp type "ignore" = 0 then set_ignore_value options option value
    else some options

/-- The `while (fgets(...))` loop of `read_options`. -/
def read_lines : List option_opt_t → List conf_line → Option (List option_opt_t)
  | options, [] => some options
  | options, l :: ls => (read_line options l).bind fun o => read_lines o ls

/-- `read_options`: `fs fname` is what `fopen` finds, `none` for a file that cannot
be opened, in which case the result is -1 and the store is untouched. -/
def read_options (fs : String → Option (List conf_line)) (options : List option_opt_t)
    (fname : String) : Option (List option_opt_t × Int) :=
  match fs fname with
  | none => some (options, -1)
  | some lines => (read_lines options lines).map fun o => (o, 0)

/-- Size of the local buffer `char userconf[128]` of `init_options`. -/
def USERCONF_SIZE : Nat := 128

/-- The block `if (home) { sprintf(userconf, "%s/.sngreprc", home); read_options(userconf); }`
of `init_options`: the `sprintf` writes the bytes of `home`, the ten bytes of
"/.sngreprc" and a NUL into `userconf`. -/
def read_userconf (fs : String → Option (List conf_line)) (home : Option String)
    (options : List option_opt_t) : Option (List option_opt_t) :=
  match home with
  | some h =>
    if h.length + 10 + 1 ≤ USERCONF_SIZE then
      (read_options fs options (h ++ "/.sngreprc")).map Prod.fst
    else none
  | none => some options

/-- `init_options`: `home` is the result of `getenv("HOME")`. Each line is one
statement of the C function, applied to the store so far; the result of the
`read_options` calls is not used. -/
def init_options (fs : String → Option (List conf_line)) (home : Option String)
    (options : List option_opt_t) : Option (List option_opt_t × Int) :=
  (some options)
  |>.bind (set_option_value · (some "color") (some "on"))
  |>.bind (set_option_value · (some "color.request") (some "on"))
  |>.bind (set_option_value · (some "color.callid") (some "off"))
  |>.bind (set_option_value · (some "color.cseq") (some "off"))
  |>.bind (set_option_value · (some "syntax") (some "on"))
  |>.bind (set_option_value · (some "syntax.branch") (some "off"))
  |>.bind (set_option_value · (some "syntax.tag") (some "off"))
  |>.bind (set_option_value · (some "match.ignorecase") (some "off"))
  |>.bind (set_option_value · (some "match.invert") (some "off"))
  |>.bind (set_option_value · (some "cl.column0") (some "time"))
  |>.bind (set_option_value · (some "cl.column0") (some "sipfrom"))
  |>.bind (set_option_value · (some "cl.column1") (some "sipto"))
  |>.bind (set_option_value · (some "cl.column2") (some "msgcnt"))
  |>.bind (set_option_value · (some "cl.column3") (some "src"))
  |>.bind (set_option_value · (some "cl.column4") (some "dst"))
  |>.bind (set_option_value · (some "cl.column5") (some "starting"))
  |>.bind (set_option_value · (some "cl.column6") (some "state"))
  |>.bind (set_option_value · (some "cl.autoscroll") (some "on"))
  |>.bind (set_option_value · (some "cl.scrollstep") (some "10"))
  |>.bind (set_option_value · (some "cl.defexitbutton") (some "1"))
  |>.bind (set_option_value · (some "cf.forceraw") (some "on"))
  |>.bind (set_option_value · (some "cf.rawminwidth") (some "40"))
  |>.bind (set_option_value · (some "cf.splitcallid") (some "off"))
  |>.bind (set_option_value · (some "cf.highlight") (some "bold"))
  |>.bind (set_option_value · (some "diff.mode") (some "line"))
  |>.bind (set_option_value · (some "sip.ignoreincomlete") (some "on"))
  |>.bind (set_option_value · (some "sip.capture") (some "on"))
  |>.bind (set_option_value · (some "sngrep.savepath") home)
  |>.bind (set_option_value · (some "capture.limit") (some "2000"))
  |>.bind (set_option_value · (some "capture.device") (some "any"))
  |>.bind (set_option_value · (some "capture.lookup") (some "off"))
  |>.bind (set_option_value · (some "filter.enable") (some "off"))
  |>.bind (set_option_value · (some "filter.REGISTER") (some "on"))
  |>.bind (set_option_value · (some "filter.INVITE") (some "on"))
  |>.bind (set_option_value · (some "filter.SUBSCRIBE") (some "on"))
  |>.bind (set_option_value · (some "filter.NOTIFY") (some "on"))
  |>.bind (set_option_value · (some "filter.OPTIONS") (some "on"))
  |>.bind (set_option_value · (some "filter.PUBLISH") (some "on"))
  |>.bind (set_option_value · (some "filter.MESSAGE") (some "on"))
  |>.bind (fun o => (read_options fs o "/etc/sngreprc").map Prod.fst)
  |>.bind (fun o => (read_options fs o "/usr/local/etc/sngreprc").map Prod.fst)
  |>.bind (read_userconf fs home ·)
  |>.bind (fun o =>
    if get_option_value o "sngrep.displayhost" = none then
      set_option_value o (some "sngrep.displayhost")
        (some (if is_option_enabled o "capture.lookup" ≠ 0 then "on" else "off"))
    else some o)
  |>.map (fun o => (o, 0))

/-! ## `sip.h`: data model

The structures are those of `sip.h`. Objects live in a store indexed by handles, a
handle standing for a pointer to an allocated object and `none` for `NULL`. A chain of
`next` pointers is the list of the handles it links, in chain order: the messages of a
call (`msgs`, `sip_msg.next`) and the calls of the call list (`first`, `last`,
`sip_call.next`, `sip_call.prev`, with `count` its length). The locks and the raw pcap
data of a message play no part in the properties below and are left out. -/

/-- Modelled from the spec: the attribute identifiers of the absent `sip_attr.h`, the
"fixed enumerated set" of section 3. -/
inductive sip_attr_id
  | CALLID
  | XCALLID
  | METHOD
  | FROM
  | TO
  | CSEQ
  | STATE
  | SRC
  | DST
  | TIME
  deriving DecidableEq

/-- Modelled from the spec: `struct sip_attr` of the absent `sip_attr.h`, one
`(field_id, string_value)` pair. -/
structure sip_attr where
  id : sip_attr_id
  value : String
  deriving DecidableEq

/-- Modelled from the spec: the attribute store's `get(owner, field_id)` of section 4.1,
the value or not present. -/
def sip_attr_get (attrs : List sip_attr) (id : sip_attr_id) : Option String :=
  (attrs.find? fun a => a.id = id).map fun a => a.value

/-- Modelled from the spec: the attribute store's `set(owner, field_id, value)` of
section 4.1, which replaces any existing value for that field. -/
def sip_attr_set (attrs : List sip_attr) (id : sip_attr_id) (value : String) :
    List sip_attr :=
  if (sip_attr_get attrs id).isSome then
    attrs.map fun a => if a.id = id then { a with value := value } else a
  else attrs ++ [{ id := id, value := value }]

/-- The C library's `struct timeval`. -/
structure timeval where
  tv_sec : Nat
  tv_usec : Nat
  deriving DecidableEq

/-- The C library's `struct in_addr`: `s_addr` read as a 32-bit number whose most
significant byte is the first octet of the dotted address. -/
structure in_addr where
  s_addr : Nat
  deriving DecidableEq

/-- `struct sip_msg`; `call` is the handle of the owning call. -/
structure sip_msg where
  attrs : List sip_attr
  ts : timeval
  src : in_addr
  sport : Nat
  dst : in_addr
  dport : Nat
  payload : String
  color : Int
  call : Option Nat
  deriving DecidableEq

/-- `struct sip_call`; `msgs` lists the handles of its messages in chain order. -/
structure sip_call where
  attrs : List sip_attr
  msgs : List Nat
  deriving DecidableEq

/-- The memory of the SIP layer: the allocated messages and calls by handle, the number
of handles given out so far, and the global `struct sip_call_list calls` as the list of
the handles of the linked calls, first to last. -/
structure sip_state where
  msg : Nat → sip_msg
  call : Nat → sip_call
  nmsg : Nat
  ncall : Nat
  calls : List Nat

/-- Modelled from the spec: following a `next` pointer of the absent `sip.c`: the handle
after the first occurrence of `x` in a chain, `none` at the end of the chain. -/
def chain_next (l : List Nat) (x : Nat) : Option Nat :=
  ((l.dropWhile fun y => y ≠ x).drop 1).head?

/-- Modelled from the spec: walking a chain of the absent `sip.c` up to `x`: the handle
before the first occurrence of `x`, `none` when `x` is the first handle or is not in the
chain. -/
def chain_prev (l : List Nat) (x : Nat) : Option Nat :=
  if x ∈ l then (l.takeWhile fun y => y ≠ x).getLast? else none

/-! ## `sip.h`: operations

The bodies of the functions declared in `sip.h` are in `sip.c`, which is absent; each
function is modelled from its contract in the specification and from its documentation
comment in `sip.h`. -/

/-- Modelled from the spec: `sip_msg_create` of the absent `sip.c`, section 4.2
`create(payload_bytes)`: a new message owning a copy of the payload, all other fields
default or empty, linked to no call. -/
def sip_msg_create (st : sip_state) (payload : String) : sip_state × Nat :=
  ({ st with
      msg := Function.update st.msg st.nmsg
        { attrs := [], ts := ⟨0, 0⟩, src := ⟨0⟩, sport := 0, dst := ⟨0⟩, dport := 0,
          payload := payload, color := 0, call := none }
      nmsg := st.nmsg + 1 },
    st.nmsg)

/-- Modelled from the spec: `sip_call_create` of the absent `sip.c`, section 4.3
`create(callid)`: a new call with its Call-ID attribute set and an empty message
sequence, not inserted into the index. -/
def sip_call_create (st : sip_state) (callid : String) : sip_state × Nat :=
  ({ st with
      call := Function.update st.call st.ncall
        { attrs := [{ id := .CALLID, value := callid }], msgs := [] }
      ncall := st.ncall + 1 },
    st.ncall)

/-- Modelled from the spec: the index operation `insert(call)` of section 4.4, absent
from the sources: the call is linked at the end of the insertion-ordered list. -/
def sip_calls_insert (st : sip_state) (call : Nat) : sip_state :=
  { st with calls := st.calls ++ [call] }

/-- Modelled from the spec: `sip_calls_count` of the absent `sip.c`, `count()` of
section 4.4. -/
def sip_calls_count (st : sip_state) : Int :=
  st.calls.length

/-- Modelled from the spec: `call_update_state` of the absent `sip.c`. Section 4.3 fixes
only that STATE is a function of the ordered message sequence, recomputed after every
append; that function is the parameter `policy`. -/
def call_update_state (policy : List sip_msg → String) (st : sip_state) (call : Nat) :
    sip_state :=
  { st with
      call := Function.update st.call call
        { st.call call with
            attrs := sip_attr_set (st.call call).attrs .STATE
              (policy ((st.call call).msgs.map st.msg)) } }

/-- Modelled from the spec: `call_add_message` of the absent `sip.c`, section 4.3
`append_message(call, message)`: sets the owner of the message, appends it to the tail of
the message sequence, then recomputes STATE. -/
def call_add_message (policy : List sip_msg → String) (st : sip_state) (call msg : Nat) :
    sip_state :=
  call_update_state policy
    { st with
        msg := Function.update st.msg msg { st.msg msg with call := some call }
        call := Function.update st.call call
          { st.call call with msgs := (st.call call).msgs ++ [msg] } }
    call

/-- Modelled from the spec: `call_msg_count` of the absent `sip.c`, section 4.3
`message_count(call)`. -/
def call_msg_count (st : sip_state) (call : Nat) : Int :=
  (st.call call).msgs.length

/-- Modelled from the spec: `call_get_next_msg` of the absent `sip.c`, section 4.3
`next_message(call, cur|absent)`: the first message when `msg` is NULL, else the message
that follows `msg` in the sequence of the call. -/
def call_get_next_msg (st : sip_state) (call : Nat) (msg : Option Nat) : Option Nat :=
  match msg with
  | none => (st.call call).msgs.head?
  | some m => chain_next (st.call call).msgs m

/-- Modelled from the spec: `call_get_prev_msg` of the absent `sip.c`, section 4.3
`prev_message(call, cur)`: the message before `msg` in the sequence of the call, NULL on
the first message. -/
def call_get_prev_msg (st : sip_state) (call : Nat) (msg : Nat) : Option Nat :=
  chain_prev (st.call call).msgs msg

/-- Modelled from the spec: `call_find_by_callid` of the absent `sip.c`, section 4.4
`find_by_callid(id)`: case-insensitive linear scan, first match in insertion order. -/
def call_find_by_callid (st : sip_state) (callid : String) : Option Nat :=
  st.calls.find? fun c =>
    match sip_attr_get (st.call c).attrs .CALLID with
    | some v => strcasecmp v callid = 0
    | none => false

/-- Modelled from the spec: `call_find_by_xcallid` of the absent `sip.c`, section 4.4
`find_by_xcallid(id)`: case-insensitive linear scan, first match in insertion order. -/
def call_find_by_xcallid (st : sip_state) (xcallid : String) : Option Nat :=
  st.calls.find? fun c =>
    match sip_attr_get (st.call c).attrs .XCALLID with
    | some v => strcasecmp v xcallid = 0
    | none => false

/-- Modelled from the spec: `call_get_xcall` of the absent `sip.c`, section 4.3
`find_other_leg(call)`: a call with an X-Call-ID attribute resolves to the call whose
Call-ID equals it; any other call resolves to the first call whose X-Call-ID equals its
Call-ID. -/
def call_get_xcall (st : sip_state) (call : Nat) : Option Nat :=
  match sip_attr_get (st.call call).attrs .XCALLID with
  | some x => call_find_by_callid st x
  | none =>
    match sip_attr_get (st.call call).attrs .CALLID with
    | some id => call_find_by_xcallid st id
    | none => none

/-- Modelled from the spec: the "same source/destination pair" of section 4.2: two
messages have the same source and destination address and port. -/
def same_endpoints (a b : sip_msg) : Bool :=
  a.src = b.src ∧ a.sport = b.sport ∧ a.dst = b.dst ∧ a.dport = b.dport

/-- Modelled from the spec: `msg_is_retrans` of the absent `sip.c`, section 4.2
`is_retransmission(message)`: the payload is compared byte for byte with that of the
nearest preceding message of the owning call that has the same source and destination;
1 when they are identical, 0 otherwise and when there is no such message. -/
def msg_is_retrans (st : sip_state) (msg : Nat) : Int :=
  match (st.msg msg).call with
  | none => 0
  | some c =>
    match ((st.call c).msgs.takeWhile fun m => m ≠ msg).reverse.find?
        fun m => same_endpoints (st.msg m) (st.msg msg) with
    | some p => if (st.msg p).payload = (st.msg msg).payload then 1 else 0
    | none => 0

/-- Modelled from the spec: the filter half of the skip policy of section 4.4, "the
external filter configuration marks its category (e.g. method) disabled", read with the
keys of section 6: filtering is switched on by `filter.enable` and the per-method key
`filter.<METHOD>` of the call's method is off. -/
def call_method_disabled (options : List option_opt_t) (call : sip_call) : Bool :=
  match sip_attr_get call.attrs .METHOD with
  | some m =>
    is_option_enabled options "filter.enable" ≠ 0
      ∧ is_option_disabled options ("filter." ++ m) ≠ 0
  | none => false

/-- Modelled from the spec: the ignore half of the skip policy of section 4.4, "any of
its attribute values matches a configured ignore rule"; `attr_name` gives the field name
under which an attribute is configured (a table of the absent `sip_attr.c`). -/
def call_attr_ignored (attr_name : sip_attr_id → String) (options : List option_opt_t)
    (call : sip_call) : Bool :=
  call.attrs.any fun a => is_ignored_value options (attr_name a.id) a.value ≠ 0

/-- Modelled from the spec: the skip policy of section 4.4 applied by `call_get_next` and
`call_get_prev`. -/
def call_skipped (attr_name : sip_attr_id → String) (options : List option_opt_t)
    (st : sip_state) (call : Nat) : Bool :=
  call_method_disabled options (st.call call)
    || call_attr_ignored attr_name options (st.call call)

/-- Modelled from the spec: `call_get_next` of the absent `sip.c`, section 4.4
`next(cur|absent)`: the calls after `cur` (all calls when `cur` is NULL) are traversed in
insertion order and the skipped ones passed over. -/
def call_get_next (attr_name : sip_attr_id → String) (options : List option_opt_t)
    (st : sip_state) (cur : Option Nat) : Option Nat :=
  let after :=
    match cur with
    | none => st.calls
    | some c => (st.calls.dropWhile fun y => y ≠ c).drop 1
  after.find? fun c => !call_skipped attr_name options st c

/-- Modelled from the spec: `call_get_prev` of the absent `sip.c`, section 4.4
`prev(cur)`: the calls before `cur` are traversed backwards and the skipped ones passed
over. -/
def call_get_prev (attr_name : sip_attr_id → String) (options : List option_opt_t)
    (st : sip_state) (cur : Nat) : Option Nat :=
  let before := if cur ∈ st.calls then st.calls.takeWhile fun y => y ≠ cur else []
  before.reverse.find? fun c => !call_skipped attr_name options st c

/-! ## `sip.h`: the capture header line

`msg_parse_header` and `msg_get_header` read and write the line
`U DD/MM/YY hh:mm:ss.uuuuuu a.b.c.d:p -> a.b.c.d:p`. A message keeps the time as a
`struct timeval` and the addresses as `struct in_addr` with a port; the conversion between
calendar fields and seconds is the C library's and is a parameter here. -/

/-- Modelled from the spec: the calendar fields `DD/MM/YY hh:mm:ss` of the capture header
grammar of section 6, as numbers. -/
structure capture_time where
  day : Nat
  month : Nat
  year : Nat
  hour : Nat
  min : Nat
  sec : Nat
  deriving DecidableEq

/-- The C library's `isdigit`. -/
def is_digit (c : Char) : Bool :=
  48 ≤ c.toNat ∧ c.toNat ≤ 57

/-- The number a string of decimal digits denotes. -/
def dec_value (cs : List Char) : Nat :=
  cs.foldl (fun n c => 10 * n + (c.toNat - 48)) 0

/-- Modelled from the spec: reading one decimal field of the header grammar: a non-empty
run of digits. -/
def parse_number (cs : List Char) : Option Nat :=
  if cs ≠ [] ∧ cs.all is_digit = true then some (dec_value cs) else none

/-- Modelled from the spec: reading a decimal field of fixed width, as `DD` or `uuuuuu`. -/
def parse_fixed (width : Nat) (cs : List Char) : Option Nat :=
  if cs.length = width then parse_number cs else none

/-- The output of `printf("%d")` for a natural number. -/
def fmt_number (n : Nat) : List Char :=
  Nat.toDigits 10 n

/-- The output of `printf("%0<width>d")` for a natural number: zero padding on the left
up to `width` characters. -/
def fmt_padded (width n : Nat) : List Char :=
  List.replicate (width - (fmt_number n).length) '0' ++ fmt_number n

/-- Modelled from the spec: the field `DD/MM/YY`. -/
def parse_date (cs : List Char) : Option (Nat × Nat × Nat) :=
  match cs.splitOn '/' with
  | [d, m, y] =>
    match parse_fixed 2 d, parse_fixed 2 m, parse_fixed 2 y with
    | some d, some m, some y => some (d, m, y)
    | _, _, _ => none
  | _ => none

/-- Modelled from the spec: the field `hh:mm:ss.uuuuuu`. -/
def parse_time (cs : List Char) : Option (Nat × Nat × Nat × Nat) :=
  match cs.splitOn ':' with
  | [h, m, su] =>
    match su.splitOn '.' with
    | [s, u] =>
      match parse_fixed 2 h, parse_fixed 2 m, parse_fixed 2 s, parse_fixed 6 u with
      | some h, some m, some s, some u => some (h, m, s, u)
      | _, _, _, _ => none
    | _ => none
  | _ => none

/-- Modelled from the spec: the field `a.b.c.d:p`, four octets and a 16-bit port. -/
def parse_address (cs : List Char) : Option (in_addr × Nat) :=
  match cs.splitOn ':' with
  | [ip, port] =>
    match ip.splitOn '.' with
    | [a, b, c, d] =>
      match parse_number a, parse_number b, parse_number c, parse_number d,
          parse_number port with
      | some a, some b, some c, some d, some p =>
        if a ≤ 255 ∧ b ≤ 255 ∧ c ≤ 255 ∧ d ≤ 255 ∧ p ≤ 65535 then
          some (⟨((a * 256 + b) * 256 + c) * 256 + d⟩, p)
        else none
      | _, _, _, _, _ => none
    | _ => none
  | _ => none

/-- Modelled from the spec: `msg_parse_header` of the absent `sip.c`, section 4.2
`parse_capture_header(message, header_text)`: the six blank-separated fields of the
grammar `<U|T> DD/MM/YY hh:mm:ss.uuuuuu A.A.A.A:P -> A.A.A.A:P` give the timestamp and
the two address and port pairs; the result is 0. Any other text leaves the message as it
is and the result is 1. -/
def msg_parse_header (mktime : capture_time → Nat) (msg : sip_msg) (header : String) :
    Int × sip_msg :=
  match header.data.splitOn ' ' with
  | [flag, date, time, src, arrow, dst] =>
    if (flag = ['U'] ∨ flag = ['T']) ∧ arrow = ['-', '>'] then
      match parse_date date, parse_time time, parse_address src, parse_address dst with
      | some (day, month, year), some (hour, min, sec, usec), some (sa, sp),
          some (da, dp) =>
        (0, { msg with
                ts := ⟨mktime ⟨day, month, year, hour, min, sec⟩, usec⟩
                src := sa, sport := sp, dst := da, dport := dp })
      | _, _, _, _ => (1, msg)
    else (1, msg)
  | _ => (1, msg)

/-- Modelled from the spec: the field `a.b.c.d:p` of the header grammar for an address
and a port, as `msg_get_header` of the absent `sip.c` prints it. -/
def fmt_address (addr : in_addr) (port : Nat) : List Char :=
  fmt_number (addr.s_addr / 16777216 % 256) ++ '.' :: fmt_number (addr.s_addr / 65536 % 256)
    ++ '.' :: fmt_number (addr.s_addr / 256 % 256) ++ '.' :: fmt_number (addr.s_addr % 256)
    ++ ':' :: fmt_number port

/-- Modelled from the spec: `msg_get_header` of the absent `sip.c`, section 4.2
`render_header_summary(message)`: timestamp and addresses in the grammar
`msg_parse_header` reads. A message does not record the transport flag; the line starts
with `U`, as in the format documented in `sip.h`. -/
def msg_get_header (localtime : Nat → capture_time) (msg : sip_msg) : String :=
  let t := localtime msg.ts.tv_sec
  String.mk
    ('U' :: ' ' :: fmt_padded 2 t.day ++ '/' :: fmt_padded 2 t.month ++ '/' :: fmt_padded 2 t.year
      ++ ' ' :: fmt_padded 2 t.hour ++ ':' :: fmt_padded 2 t.min ++ ':' :: fmt_padded 2 t.sec
      ++ '.' :: fmt_padded 6 msg.ts.tv_usec
      ++ ' ' :: fmt_address msg.src msg.sport
      ++ ' ' :: '-' :: '>' :: ' ' :: fmt_address msg.dst msg.dport)

/-! ## Vocabulary of the specification for the option store -/

/-- Two strings are equal ignoring ASCII case: they agree byte by byte after `tolower`. -/
def eq_nocase (a b : String) : Prop :=
  a.data.map tolower = b.data.map tolower

instance (a b : String) : Decidable (eq_nocase a b) :=
  inferInstanceAs (Decidable (a.data.map tolower = b.data.map tolower))

/-- A call `set_option_value(opt, value)`; either argument may be NULL. -/
abbrev set_call := Option String × Option String

/-- A sequence of `set_option_value` calls applied in order to a store. -/
def run_sets (calls : List set_call) (options : List option_opt_t) :
    Option (List option_opt_t) :=
  calls.foldl (fun acc c => acc.bind (set_option_value · c.1 c.2)) (some options)

/-- The value passed by the last call of the sequence whose name equals `key` ignoring
case; calls with a NULL name or a NULL value count as not made. -/
def last_write (calls : List set_call) (key : String) : Option String :=
  calls.foldl
    (fun acc c =>
      match c with
      | (some n, some v) => if eq_nocase key n then some v else acc
      | _ => acc)
    none

/-- The name a call writes under, folded to lower case; `none` for a call that counts
as not made. -/
def written_name : set_call → Option (List Char)
  | (some n, some _) => some (n.data.map tolower)
  | _ => none

/-- The number of distinct names, ignoring case, that a sequence of calls writes. -/
def distinct_names (calls : List set_call) : Nat :=
  (calls.filterMap written_name).toFinset.card

/-- A call on the store: `set_option_value(opt, value)` or `set_ignore_value(opt, value)`. -/
inductive store_call
  | set (opt value : Option String)
  | ignore (opt value : String)

/-- One call applied to a store. -/
def run_call (options : List option_opt_t) : store_call → Option (List option_opt_t)
  | .set opt value => set_option_value options opt value
  | .ignore opt value => set_ignore_value options opt value

/-- A sequence of calls applied in order to a store. -/
def run_calls (calls : List store_call) (options : List option_opt_t) :
    Option (List option_opt_t) :=
  calls.foldl (fun acc c => acc.bind (run_call · c)) (some options)

/-- The defaults `init_options` sets before the default save path. -/
def defaults_before_savepath : List set_call :=
  [(some "color", some "on"), (some "color.request", some "on"),
   (some "color.callid", some "off"), (some "color.cseq", some "off"),
   (some "syntax", some "on"), (some "syntax.branch", some "off"),
   (some "syntax.tag", some "off"), (some "match.ignorecase", some "off"),
   (some "match.invert", some "off"), (some "cl.column0", some "time"),
   (some "cl.column0", some "sipfrom"), (some "cl.column1", some "sipto"),
   (some "cl.column2", some "msgcnt"), (some "cl.column3", some "src"),
   (some "cl.column4", some "dst"), (some "cl.column5", some "starting"),
   (some "cl.column6", some "state"), (some "cl.autoscroll", some "on"),
   (some "cl.scrollstep", some "10"), (some "cl.defexitbutton", some "1"),
   (some "cf.forceraw", some "on"), (some "cf.rawminwidth", some "40"),
   (some "cf.splitcallid", some "off"), (some "cf.highlight", some "bold"),
   (some "diff.mode", some "line"), (some "sip.ignoreincomlete", some "on"),
   (some "sip.capture", some "on")]

/-- The defaults `init_options` sets after the default save path. -/
def defaults_after_savepath : List set_call :=
  [(some "capture.limit", some "2000"), (some "capture.device", some "any"),
   (some "capture.lookup", some "off"), (some "filter.enable", some "off"),
   (some "filter.REGISTER", some "on"), (some "filter.INVITE", some "on"),
   (some "filter.SUBSCRIBE", some "on"), (some "filter.NOTIFY", some "on"),
   (some "filter.OPTIONS", some "on"), (some "filter.PUBLISH", some "on"),
   (some "filter.MESSAGE", some "on")]

/-- The `set_option_value` calls `init_options` makes before it reads any file. -/
def default_calls (home : Option String) : List set_call :=
  defaults_before_savepath ++ (some "sngrep.savepath", home) :: defaults_after_savepath

/-! ## Vocabulary of the specification for calls and messages -/

/-- The messages of a list appended one by one to a call with `call_add_message`. -/
def add_messages (policy : List sip_msg → String) (st : sip_state) (call : Nat)
    (ms : List Nat) : sip_state :=
  ms.foldl (fun s m => call_add_message policy s call m) st

/-- The results of `call_get_next_msg` applied at most `n` times, each time to the
message the previous application returned, starting from `cur`; the walk ends at NULL. -/
def next_msg_walk (st : sip_state) (call : Nat) : Nat → Option Nat → List Nat
  | 0, _ => []
  | n + 1, cur =>
    match call_get_next_msg st call cur with
    | none => []
    | some m => m :: next_msg_walk st call n (some m)

/-- The results of `call_get_prev_msg` applied at most `n` times, each time to the
message the previous application returned, starting from `msg`; the walk ends at NULL. -/
def prev_msg_walk (st : sip_state) (call : Nat) : Nat → Nat → List Nat
  | 0, _ => []
  | n + 1, msg =>
    match call_get_prev_msg st call msg with
    | none => []
    | some p => p :: prev_msg_walk st call n p

/-- The Call-ID attribute of a call. -/
def call_callid (st : sip_state) (call : Nat) : Option String :=
  sip_attr_get (st.call call).attrs .CALLID

/-- The X-Call-ID (or X-CID) attribute of a call. -/
def call_xcallid (st : sip_state) (call : Nat) : Option String :=
  sip_attr_get (st.call call).attrs .XCALLID

/-- Call `a` names call `b` as its other leg: the X-Call-ID of `a` equals the Call-ID
of `b` ignoring case. -/
def names_leg (st : sip_state) (a b : Nat) : Prop :=
  ∃ x y, call_xcallid st a = some x ∧ call_callid st b = some y ∧ eq_nocase x y

/-- Two calls are linked in either direction. -/
def legs_linked (st : sip_state) (a b : Nat) : Prop :=
  names_leg st a b ∨ names_leg st b a

/-- The SIP layer at process start: no message, no call, an empty call list. -/
def sip_state_init : sip_state :=
  { msg := fun _ =>
      { attrs := [], ts := ⟨0, 0⟩, src := ⟨0⟩, sport := 0, dst := ⟨0⟩, dport := 0,
        payload := "", color := 0, call := none }
    call := fun _ => { attrs := [], msgs := [] }
    nmsg := 0
    ncall := 0
    calls := [] }

/-- An index of two calls in which the leg named by call 0 names a third call itself:
call 0 has Call-ID "a" and X-Call-ID "b", call 1 has Call-ID "b" and X-Call-ID "c". -/
def chained_legs_state : sip_state :=
  { sip_state_init with
    call := fun h =>
      if h = 0 then
        { attrs := [{ id := .CALLID, value := "a" }, { id := .XCALLID, value := "b" }],
          msgs := [] }
      else
        { attrs := [{ id := .CALLID, value := "b" }, { id := .XCALLID, value := "c" }],
          msgs := [] }
    ncall := 2
    calls := [0, 1] }

/-- An index of three calls in which two calls name the same leg: calls 0 and 1 have
Call-IDs "a" and "c" and both X-Call-ID "b", call 2 has Call-ID "b". -/
def shared_leg_state : sip_state :=
  { sip_state_init with
    call := fun h =>
      if h = 0 then
        { attrs := [{ id := .CALLID, value := "a" }, { id := .XCALLID, value := "b" }],
          msgs := [] }
      else if h = 1 then
        { attrs := [{ id := .CALLID, value := "c" }, { id := .XCALLID, value := "b" }],
          msgs := [] }
      else { attrs := [{ id := .CALLID, value := "b" }], msgs := [] }
    ncall := 3
    calls := [0, 1, 2] }

/-- An index of two legs: call 0 has Call-ID "b", call 1 has Call-ID "a" and X-Call-ID
"B"; the leg that is named was inserted first. -/
def two_legs_state : sip_state :=
  { sip_state_init with
    call := fun h =>
      if h = 0 then { attrs := [{ id := .CALLID, value := "b" }], msgs := [] }
      else
        { attrs := [{ id := .CALLID, value := "a" }, { id := .XCALLID, value := "B" }],
          msgs := [] }
    ncall := 2
    calls := [0, 1] }

/-- An index of two calls that no call is linked to: call 0 has Call-ID "a" and names a
leg "z" that is not in the index, call 1 has Call-ID "b" and no X-Call-ID. -/
def unlinked_calls_state : sip_state :=
  { sip_state_init with
    call := fun h =>
      if h = 0 then
        { attrs := [{ id := .CALLID, value := "a" }, { id := .XCALLID, value := "z" }],
          msgs := [] }
      else { attrs := [{ id := .CALLID, value := "b" }], msgs := [] }
    ncall := 2
    calls := [0, 1] }

/-- The results of `call_get_next` applied at most `n` times, each time to the call the
previous application returned, starting from `cur`; the walk ends at NULL. -/
def next_call_walk (attr_name : sip_attr_id → String) (options : List option_opt_t)
    (st : sip_state) : Nat → Option Nat → List Nat
  | 0, _ => []
  | n + 1, cur =>
    match call_get_next attr_name options st cur with
    | none => []
    | some c => c :: next_call_walk attr_name options st n (some c)

/-- The results of `call_get_prev` applied at most `n` times, each time to the call the
previous application returned, starting from `cur`; the walk ends at NULL. -/
def prev_call_walk (attr_name : sip_attr_id → String) (options : List option_opt_t)
    (st : sip_state) : Nat → Nat → List Nat
  | 0, _ => []
  | n + 1, cur =>
    match call_get_prev attr_name options st cur with
    | none => []
    | some c => c :: prev_call_walk attr_name options st n c

/-- The text `DD/MM/YY` of the date fields. -/
def date_text (t : capture_time) : List Char :=
  fmt_padded 2 t.day ++ '/' :: (fmt_padded 2 t.month ++ '/' :: fmt_padded 2 t.year)

/-- The text `hh:mm:ss.uuuuuu` of the time fields and the microseconds. -/
def time_text (t : capture_time) (usec : Nat) : List Char :=
  fmt_padded 2 t.hour
    ++ ':' :: (fmt_padded 2 t.min ++ ':' :: (fmt_padded 2 t.sec ++ '.' :: fmt_padded 6 usec))

/-- The text `a.b.c.d:p` of four octets and a port. -/
def address_text (o1 o2 o3 o4 port : Nat) : List Char :=
  (fmt_number o1 ++ '.' :: (fmt_number o2 ++ '.' :: (fmt_number o3 ++ '.' :: fmt_number o4)))
    ++ ':' :: fmt_number port

/-- The capture header line `U DD/MM/YY hh:mm:ss.uuuuuu a.b.c.d:p -> a.b.c.d:p` for given
calendar fields, microseconds, and the octets and port of source and destination. -/
def capture_header_line (t : capture_time) (usec : Nat) (s1 s2 s3 s4 sport : Nat)
    (d1 d2 d3 d4 dport : Nat) : String :=
  String.mk
    (['U'] ++ ' ' :: (date_text t ++ ' ' :: (time_text t usec
      ++ ' ' :: (address_text s1 s2 s3 s4 sport
      ++ ' ' :: (['-', '>'] ++ ' ' :: address_text d1 d2 d3 d4 dport)))))

/-- The fields of a well-formed capture header line are in range: two-digit date and
time fields, six-digit microseconds, octets below 256 and 16-bit ports. -/
def header_fields_in_range (t : capture_time) (usec : Nat) (s1 s2 s3 s4 sport : Nat)
    (d1 d2 d3 d4 dport : Nat) : Prop :=
  t.day < 100 ∧ t.month < 100 ∧ t.year < 100 ∧ t.hour < 100 ∧ t.min < 100 ∧ t.sec < 100
    ∧ usec < 1000000
    ∧ s1 ≤ 255 ∧ s2 ≤ 255 ∧ s3 ≤ 255 ∧ s4 ≤ 255 ∧ sport ≤ 65535
    ∧ d1 ≤ 255 ∧ d2 ≤ 255 ∧ d3 ≤ 255 ∧ d4 ≤ 255 ∧ dport ≤ 65535

instance (t : capture_time) (usec s1 s2 s3 s4 sport d1 d2 d3 d4 dport : Nat) :
    Decidable (header_fields_in_range t usec s1 s2 s3 s4 sport d1 d2 d3 d4 dport) := by
  unfold header_fields_in_range
  infer_instance

/-- Days from 1970-01-01 to the given day of the proleptic Gregorian calendar. -/
def days_from_civil (y m d : Nat) : Nat :=
  let y' := if m ≤ 2 then y - 1 else y
  let era := y' / 400
  let yoe := y' - era * 400
  let mp := (m + 9) % 12
  let doy := (153 * mp + 2) / 5 + d - 1
  let doe := yoe * 365 + yoe / 4 - yoe / 100 + doy
  era * 146097 + doe - 719468

/-- An instance of the C library's `timegm` on the fields of a capture header, the
two-digit year counted from 2000. -/
def utc_mktime (t : capture_time) : Nat :=
  days_from_civil (2000 + t.year) t.month t.day * 86400
    + t.hour * 3600 + t.min * 60 + t.sec

/-- An instance of the C library's `gmtime`, giving the fields of a capture header. -/
def utc_localtime (secs : Nat) : capture_time :=
  let z := secs / 86400 + 719468
  let era := z / 146097
  let doe := z - era * 146097
  let yoe := (doe - doe / 1460 + doe / 36524 - doe / 146096) / 365
  let doy := doe - (365 * yoe + yoe / 4 - yoe / 100)
  let mp := (5 * doy + 2) / 153
  let d := doy - (153 * mp + 2) / 5 + 1
  let m := if mp < 10 then mp + 3 else mp - 9
  let y := yoe + era * 400 + (if m ≤ 2 then 1 else 0)
  { day := d, month := m, year := y % 100,
    hour := secs % 86400 / 3600, min := secs % 3600 / 60, sec := secs % 60 }

/-! ## Sample states -/

/-- A state with two messages of identical payload, handles 0 and 1, and one call,
handle 0, as `sip_msg_create` and `sip_call_create` leave them. -/
def retrans_state : sip_state :=
  (sip_call_create
    (sip_msg_create (sip_msg_create sip_state_init "INVITE sip:bob@example.com SIP/2.0").1
      "INVITE sip:bob@example.com SIP/2.0").1
    "abc123").1

/-- An instance of the table of attribute field names. -/
def sample_attr_name : sip_attr_id → String
  | .CALLID => "callid"
  | .XCALLID => "xcallid"
  | .METHOD => "method"
  | .FROM => "sipfrom"
  | .TO => "sipto"
  | .CSEQ => "cseq"
  | .STATE => "state"
  | .SRC => "src"
  | .DST => "dst"
  | .TIME => "time"

/-- An option store with filtering switched on, the method OPTIONS switched off, and an
ignore rule for calls from "alice". -/
def sample_options : List option_opt_t :=
  [{ type := .SETTING, opt := "filter.enable", value := "on" },
   { type := .SETTING, opt := "filter.INVITE", value := "on" },
   { type := .SETTING, opt := "filter.OPTIONS", value := "off" },
   { type := .IGNORE, opt := "sipfrom", value := "alice" }]

/-- An index of four calls: an INVITE from bob, an OPTIONS ping, an INVITE from alice
and a REGISTER from carol. -/
def filtered_index_state : sip_state :=
  { sip_state_init with
    call := fun h =>
      if h = 0 then
        { attrs := [{ id := .CALLID, value := "a" }, { id := .METHOD, value := "INVITE" },
            { id := .FROM, value := "bob" }],
          msgs := [] }
      else if h = 1 then
        { attrs := [{ id := .CALLID, value := "b" }, { id := .METHOD, value := "OPTIONS" },
            { id := .FROM, value := "bob" }],
          msgs := [] }
      else if h = 2 then
        { attrs := [{ id := .CALLID, value := "c" }, { id := .METHOD, value := "INVITE" },
            { id := .FROM, value := "Alice" }],
          msgs := [] }
      else
        { attrs := [{ id := .CALLID, value := "d" }, { id := .METHOD, value := "REGISTER" },
            { id := .FROM, value := "carol" }],
          msgs := [] }
    ncall := 4
    calls := [0, 1, 2, 3] }

/-! ## Vocabulary of the specification for `init_options` with configuration files -/

/-- The lines `read_options` gets from a path; none for a file that cannot be opened. -/
def file_lines (fs : String → Option (List conf_line)) (path : String) : List conf_line :=
  match fs path with
  | some lines => lines
  | none => []

/-- The lines of $HOME/.sngreprc; none when HOME is not set. -/
def userconf_lines (fs : String → Option (List conf_line)) (home : Option String) :
    List conf_line :=
  match home with
  | some h => file_lines fs (h ++ "/.sngreprc")
  | none => []

/-- The lines of the configuration files `init_options` reads, in reading order:
/etc/sngreprc, /usr/local/etc/sngreprc and, when HOME is set, $HOME/.sngreprc. -/
def config_lines (fs : String → Option (List conf_line)) (home : Option String) :
    List conf_line :=
  file_lines fs "/etc/sngreprc"
    ++ (file_lines fs "/usr/local/etc/sngreprc" ++ userconf_lines fs home)

/-- A configuration line names an option: it is a setting line whose option capture
equals the key ignoring case. -/
def line_names (l : conf_line) (key : String) : Prop :=
  match l with
  | .setting _ option _ => eq_nocase option key
  | _ => False

instance (l : conf_line) (key : String) : Decidable (line_names l key) := by
  unfold line_names
  split <;> infer_instance

/-- The path $HOME/.sngreprc fits the buffer `userconf` of `init_options`. -/
def userconf_fits (home : Option String) : Prop :=
  match home with
  | some h => h.length + 10 + 1 ≤ USERCONF_SIZE
  | none => True

instance (home : Option String) : Decidable (userconf_fits home) := by
  unfold userconf_fits
  split <;> infer_instance

/-- The store of `init_options` once the configuration files have been read, before the
default of `sngrep.displayhost` is set. -/
def options_after_files (fs : String → Option (List conf_line)) (home : Option String)
    (options : List option_opt_t) : Option (List option_opt_t) :=
  (((run_sets (default_calls home) options).bind
      (fun o => (read_options fs o "/etc/sngreprc").map Prod.fst)).bind
      (fun o => (read_options fs o "/usr/local/etc/sngreprc").map Prod.fst)).bind
      (fun o => read_userconf fs home o)

/-- A file system with one configuration file, /etc/sngreprc, that switches the lookup of
host names on and holds a comment and an ignore rule. -/
def sample_fs (path : String) : Option (List conf_line) :=
  if path = "/etc/sngreprc" then
    some [conf_line.blank, conf_line.setting "set" "capture.lookup" "on",
      conf_line.setting "ignore" "sipfrom" "alice"]
  else none

/-- A store with one ignore rule, for calls from "alice". -/
def ignore_alice_store : List option_opt_t :=
  [{ type := .IGNORE, opt := "sipfrom", value := "alice" }]

/-! ## C library facts -/

theorem strcasecmp_bytes_eq_zero (a b : List Char) :
    strcasecmp_bytes a b = 0 ↔ a.map tolower = b.map tolower := by
  induction a generalizing b with
  | nil => cases b <;> simp [strcasecmp_bytes]
  | cons x xs ih =>
    cases b with
    | nil => simp [strcasecmp_bytes]
    | cons y ys =>
      simp only [strcasecmp_bytes, List.map_cons, List.cons.injEq]
      by_cases h : tolower x = tolower y
      · simp [h, ih]
      · simp only [h, if_false, false_and, iff_false]
        intro hz
        apply h
        have : (tolower x).toNat = (tolower y).toNat := by omega
        exact Char.ext (UInt32.ext this)

theorem strcasecmp_eq_zero (a b : String) : strcasecmp a b = 0 ↔ eq_nocase a b :=
  strcasecmp_bytes_eq_zero a.data b.data

theorem eq_nocase_refl (a : String) : eq_nocase a a := rfl

theorem eq_nocase_symm {a b : String} (h : eq_nocase a b) : eq_nocase b a :=
  Eq.symm h

theorem eq_nocase_trans {a b c : String} (h : eq_nocase a b) (h' : eq_nocase b c) :
    eq_nocase a c :=
  Eq.trans h h'

theorem eq_nocase_comm (a b : String) : eq_nocase a b ↔ eq_nocase b a :=
  ⟨eq_nocase_symm, eq_nocase_symm⟩

/-! ## Lookup in the store -/

theorem get_option_value_cons (o : option_opt_t) (rest : List option_opt_t) (k : String) :
    get_option_value (o :: rest) k
      = if eq_nocase k o.opt then some o.value else get_option_value rest k := by
  simp only [get_option_value, strcasecmp_eq_zero]

theorem get_option_value_eq_none (s : List option_opt_t) (k : String) :
    get_option_value s k = none ↔ ∀ e ∈ s, ¬ eq_nocase k e.opt := by
  induction s with
  | nil => simp [get_option_value]
  | cons o rest ih =>
    rw [get_option_value_cons]
    by_cases h : eq_nocase k o.opt
    · simp [h]
    · simp [h, ih]

theorem get_option_value_append (s t : List option_opt_t) (k : String) :
    get_option_value (s ++ t) k
      = match get_option_value s k with
        | some v => some v
        | none => get_option_value t k := by
  induction s with
  | nil => simp [get_option_value]
  | cons o rest ih =>
    rw [List.cons_append, get_option_value_cons, get_option_value_cons]
    by_cases h : eq_nocase k o.opt
    · simp [h]
    · simp [h, ih]

theorem get_option_value_replace (s : List option_opt_t) (opt value k : String) :
    get_option_value (replace_values s opt value) k
      = if eq_nocase k opt then (get_option_value s k).map (fun _ => value)
        else get_option_value s k := by
  induction s with
  | nil => simp [replace_values, get_option_value]
  | cons o rest ih =>
    have hrep : replace_values (o :: rest) opt value
        = (if eq_nocase opt o.opt then { o with value := value } else o)
            :: replace_values rest opt value := by
      simp [replace_values, strcasecmp_eq_zero]
    rw [hrep, get_option_value_cons, get_option_value_cons, ih]
    by_cases hk : eq_nocase k opt
    · by_cases ho : eq_nocase opt o.opt
      · have hko : eq_nocase k o.opt := eq_nocase_trans hk ho
        simp [hk, ho, hko]
      · have hko : ¬ eq_nocase k o.opt := fun h =>
          ho (eq_nocase_trans (eq_nocase_symm hk) h)
        simp [hk, ho, hko]
    · by_cases ho : eq_nocase opt o.opt
      · have hko : ¬ eq_nocase k o.opt := fun h =>
          hk (eq_nocase_trans h (eq_nocase_symm ho))
        simp [hk, ho, hko]
      · simp [hk, ho]

theorem set_option_value_some (s : List option_opt_t) (opt value : String) :
    set_option_value s (some opt) (some value)
      = match get_option_value s opt with
        | none =>
          if optscnt s < OPTIONS_SIZE then
            some (s ++ [{ type := .SETTING, opt := opt, value := value }])
          else none
        | some _ => some (replace_values s opt value) := rfl

/-- What `get_option_value` returns after a `set_option_value` that wrote. -/
theorem get_after_set (s s' : List option_opt_t) (opt value k : String)
    (h : set_option_value s (some opt) (some value) = some s') :
    get_option_value s' k
      = if eq_nocase k opt then some value else get_option_value s k := by
  rw [set_option_value_some] at h
  cases hg : get_option_value s opt with
  | none =>
    rw [hg] at h
    simp only at h
    split at h
    · cases h
      rw [get_option_value_append]
      by_cases hk : eq_nocase k opt
      · have hnone : get_option_value s k = none := by
          rw [get_option_value_eq_none] at hg ⊢
          intro e he hke
          exact hg e he (eq_nocase_trans (eq_nocase_symm hk) hke)
        simp [hnone, hk, get_option_value_cons]
      · cases hs : get_option_value s k <;>
          simp [hk, get_option_value_cons, get_option_value, strcasecmp_eq_zero]
    · cases h
  | some w =>
    rw [hg] at h
    simp only at h
    cases h
    rw [get_option_value_replace]
    by_cases hk : eq_nocase k opt
    · have hsome : ∃ w', get_option_value s k = some w' := by
        cases hs : get_option_value s k with
        | some w' => exact ⟨w', rfl⟩
        | none =>
          exfalso
          rw [get_option_value_eq_none] at hs
          have hne : get_option_value s opt ≠ none := by simp [hg]
          apply hne
          rw [get_option_value_eq_none]
          intro e he hoe
          exact hs e he (eq_nocase_trans hk hoe)
      obtain ⟨w', hw'⟩ := hsome
      simp [hk, hw']
    · simp [hk]

/-! ## Sequences of `set_option_value` calls -/

theorem run_sets_snoc (calls : List set_call) (c : set_call) (s0 : List option_opt_t) :
    run_sets (calls ++ [c]) s0
      = (run_sets calls s0).bind (set_option_value · c.1 c.2) := by
  simp [run_sets, List.foldl_append]

theorem last_write_snoc (calls : List set_call) (c : set_call) (key : String) :
    last_write (calls ++ [c]) key
      = match c with
        | (some n, some v) => if eq_nocase key n then some v else last_write calls key
        | _ => last_write calls key := by
  simp only [last_write, List.foldl_append, List.foldl_cons, List.foldl_nil]

theorem get_none_iff_not_mem (s : List option_opt_t) (opt : String) :
    get_option_value s opt = none
      ↔ opt.data.map tolower ∉ s.map (fun e => e.opt.data.map tolower) := by
  rw [get_option_value_eq_none]
  simp only [List.mem_map, not_exists, not_and, eq_nocase]
  constructor
  · intro h e he heq
    exact h e he heq.symm
  · intro h e he heq
    exact h e he heq.symm

theorem replace_values_names (s : List option_opt_t) (opt value : String) :
    (replace_values s opt value).map (fun e => e.opt.data.map tolower)
      = s.map (fun e => e.opt.data.map tolower) := by
  simp only [replace_values, List.map_map]
  apply List.map_congr_left
  intro e _
  simp only [Function.comp]
  split <;> rfl

/-- The invariant of a store built from the empty store by `set_option_value` calls:
names are unique ignoring case, they are exactly the names written, and every lookup
returns the last value written under that name. -/
theorem run_sets_invariant (calls : List set_call) (hcap : distinct_names calls ≤ OPTIONS_SIZE) :
    ∃ s, run_sets calls [] = some s
      ∧ (s.map (fun e => e.opt.data.map tolower)).Nodup
      ∧ (s.map (fun e => e.opt.data.map tolower)).toFinset
          = (calls.filterMap written_name).toFinset
      ∧ ∀ k, get_option_value s k = last_write calls k := by
  induction calls using List.reverseRecOn with
  | nil =>
    exact ⟨[], rfl, by simp, by simp, fun k => rfl⟩
  | append_singleton calls c ih =>
    have hsub : (calls.filterMap written_name).toFinset
        ⊆ ((calls ++ [c]).filterMap written_name).toFinset := by
      intro x hx
      simp only [List.mem_toFinset, List.filterMap_append, List.mem_append] at hx ⊢
      exact Or.inl hx
    have hcap' : distinct_names calls ≤ OPTIONS_SIZE :=
      le_trans (Finset.card_le_card hsub) hcap
    obtain ⟨s, hrun, hnodup, hnames, hget⟩ := ih hcap'
    rw [run_sets_snoc, hrun]
    simp only [Option.some_bind]
    rcases c with ⟨_ | n, _ | v⟩
    · exact ⟨s, rfl, hnodup, by simpa [written_name] using hnames,
        fun k => by rw [last_write_snoc]; exact hget k⟩
    · exact ⟨s, rfl, hnodup, by simpa [written_name] using hnames,
        fun k => by rw [last_write_snoc]; exact hget k⟩
    · exact ⟨s, rfl, hnodup, by simpa [written_name] using hnames,
        fun k => by rw [last_write_snoc]; exact hget k⟩
    · have hwn : (calls ++ [(some n, some v)]).filterMap written_name
          = calls.filterMap written_name ++ [n.data.map tolower] := by
        simp [written_name]
      have hset : ∃ s', set_option_value s (some n) (some v) = some s'
          ∧ (s'.map (fun e => e.opt.data.map tolower)).Nodup
          ∧ (s'.map (fun e => e.opt.data.map tolower)).toFinset
              = (s.map (fun e => e.opt.data.map tolower)).toFinset
                  ∪ {n.data.map tolower} := by
        rw [set_option_value_some]
        cases hg : get_option_value s n with
        | none =>
          have hnot := (get_none_iff_not_mem s n).mp hg
          have hlen : optscnt s < OPTIONS_SIZE := by
            have h1 : optscnt s
                = (s.map (fun e => e.opt.data.map tolower)).toFinset.card := by
              rw [List.toFinset_card_of_nodup hnodup]; simp [optscnt]
            have h2 : ((calls ++ [(some n, some v)]).filterMap written_name).toFinset
                = insert (n.data.map tolower)
                    (s.map (fun e => e.opt.data.map tolower)).toFinset := by
              rw [hwn, hnames]
              ext x
              simp only [List.mem_toFinset, List.mem_append, List.mem_singleton,
                Finset.mem_insert]
              tauto
            have h3 : distinct_names (calls ++ [(some n, some v)])
                = (s.map (fun e => e.opt.data.map tolower)).toFinset.card + 1 := by
              unfold distinct_names
              rw [h2, Finset.card_insert_of_not_mem]
              simpa using hnot
            omega
          simp only [hlen, if_true]
          refine ⟨_, rfl, ?_, ?_⟩
          · rw [List.map_append, List.nodup_append]
            refine ⟨hnodup, by simp, ?_⟩
            intro x hx hx'
            simp only [List.map_cons, List.map_nil, List.mem_singleton] at hx'
            subst hx'
            exact hnot hx
          · ext x
            simp
        | some w =>
          refine ⟨_, rfl, ?_, ?_⟩
          · rw [replace_values_names]; exact hnodup
          · rw [replace_values_names]
            have hmem : n.data.map tolower ∈ s.map (fun e => e.opt.data.map tolower) := by
              by_contra hc
              have := (get_none_iff_not_mem s n).mpr hc
              rw [hg] at this
              cases this
            ext x
            simp only [List.mem_toFinset, Finset.mem_union, Finset.mem_singleton]
            constructor
            · exact Or.inl
            · rintro (h | h)
              · exact h
              · subst h; exact hmem
      obtain ⟨s', hs', hnodup', hnames'⟩ := hset
      refine ⟨s', hs', hnodup', ?_, ?_⟩
      · rw [hnames', hnames, hwn]
        ext x
        simp
      · intro k
        rw [get_after_set s s' n v k hs', last_write_snoc, hget k]

theorem distinct_names_le_length (calls : List set_call) :
    distinct_names calls ≤ calls.length :=
  le_trans (List.toFinset_card_le _) (List.length_filterMap_le _ _)

/-! ## `init_options` without configuration files -/

theorem last_write_skip (pre post : List set_call) (n : String) (v : Option String)
    (k : String) (hk : ¬ eq_nocase k n) :
    last_write (pre ++ (some n, v) :: post) k = last_write (pre ++ post) k := by
  simp only [last_write, List.foldl_append, List.foldl_cons]
  cases v <;> simp [hk]

/-- The statements of `init_options` before the first `read_options` are the calls of
`default_calls`, in order. -/
theorem init_options_eq (fs : String → Option (List conf_line)) (home : Option String)
    (options : List option_opt_t) :
    init_options fs home options
      = (((((run_sets (default_calls home) options).bind
            (fun o => (read_options fs o "/etc/sngreprc").map Prod.fst)).bind
            (fun o => (read_options fs o "/usr/local/etc/sngreprc").map Prod.fst)).bind
            (fun o => read_userconf fs home o)).bind
            (fun o =>
              if get_option_value o "sngrep.displayhost" = none then
                set_option_value o (some "sngrep.displayhost")
                  (some (if is_option_enabled o "capture.lookup" ≠ 0 then "on" else "off"))
              else some o)).map (fun o => (o, 0)) := rfl

theorem read_userconf_unreadable (fs : String → Option (List conf_line))
    (home : Option String) (o : List option_opt_t)
    (h3 : ∀ h, home = some h →
      h.length + 10 + 1 ≤ USERCONF_SIZE ∧ fs (h ++ "/.sngreprc") = none) :
    read_userconf fs home o = some o := by
  cases home with
  | none => rfl
  | some h =>
    obtain ⟨hlen, hfs⟩ := h3 h rfl
    simp [read_userconf, hlen, read_options, hfs]

/-- With no readable configuration file `init_options` is the sequence of its default
calls followed by the default of `sngrep.displayhost`, and it returns 0. -/
theorem init_options_unreadable (fs : String → Option (List conf_line))
    (home : Option String)
    (h1 : fs "/etc/sngreprc" = none) (h2 : fs "/usr/local/etc/sngreprc" = none)
    (h3 : ∀ h, home = some h →
      h.length + 10 + 1 ≤ USERCONF_SIZE ∧ fs (h ++ "/.sngreprc") = none) :
    ∃ s, init_options fs home [] = some (s, 0)
      ∧ ∀ k, ¬ eq_nocase k "sngrep.savepath" →
          get_option_value s k
            = last_write (defaults_before_savepath ++ defaults_after_savepath
                ++ [(some "sngrep.displayhost", some "off")]) k := by
  have hcap : distinct_names (default_calls home ++ [(some "sngrep.displayhost", some "off")])
      ≤ OPTIONS_SIZE := by
    refine le_trans (distinct_names_le_length _) ?_
    simp [default_calls, defaults_before_savepath, defaults_after_savepath, OPTIONS_SIZE]
  obtain ⟨s1, hrun1, _, _, hget1⟩ := run_sets_invariant _ hcap
  have hcap0 : distinct_names (default_calls home) ≤ OPTIONS_SIZE := by
    refine le_trans (distinct_names_le_length _) ?_
    simp [default_calls, defaults_before_savepath, defaults_after_savepath, OPTIONS_SIZE]
  obtain ⟨s0, hrun0, _, _, hget0⟩ := run_sets_invariant _ hcap0
  rw [run_sets_snoc, hrun0] at hrun1
  simp only [Option.some_bind] at hrun1
  have hdh : get_option_value s0 "sngrep.displayhost" = none := by
    rw [hget0]
    unfold default_calls
    rw [last_write_skip _ _ _ _ _ (by decide)]
    decide
  have hcl : is_option_enabled s0 "capture.lookup" = 0 := by
    have : get_option_value s0 "capture.lookup" = some "off" := by
      rw [hget0]
      unfold default_calls
      rw [last_write_skip _ _ _ _ _ (by decide)]
      decide
    unfold is_option_enabled
    rw [this]
    decide
  have hhome := read_userconf_unreadable fs home s0 h3
  refine ⟨s1, ?_, ?_⟩
  · rw [init_options_eq, hrun0]
    simp only [Option.some_bind, read_options, h1, h2, Option.map_some', hhome, hdh,
      if_true, hcl, ne_eq, not_true_eq_false, if_false, hrun1]
  · intro k hk
    rw [hget1]
    unfold default_calls
    rw [List.append_assoc, List.cons_append, last_write_skip _ _ _ _ _ hk,
      ← List.append_assoc]

/-! ## The claims about the option store -/

/-- C1, as stated, fails: after the single call `set_option_value("color", "on")` on the
empty store, `is_ignored_value("color", "on")` returns 1 although the store holds no
entry of type IGNORE. -/
theorem is_ignored_value_setting_counterexample :
    run_calls [store_call.set (some "color") (some "on")] []
        = some [{ type := option_type.SETTING, opt := "color", value := "on" }]
      ∧ is_ignored_value [{ type := option_type.SETTING, opt := "color", value := "on" }]
          "color" "on" = 1
      ∧ ¬ ∃ e ∈ [({ type := option_type.SETTING, opt := "color", value := "on" } :
            option_opt_t)],
          e.type = option_type.IGNORE ∧ eq_nocase e.opt "color" ∧ eq_nocase e.value "on" := by
  decide

/-- C1 (amended): for every option store, `is_ignored_value(field, value)` returns 1 if
and only if the store holds an entry of either type, a setting or an ignore rule, whose
name equals `field` and whose value equals `value`, both ignoring ASCII case; otherwise
it returns 0. -/
theorem is_ignored_value_iff (s : List option_opt_t) (field value : String) :
    (is_ignored_value s field value = 1
        ↔ ∃ e ∈ s, eq_nocase e.opt field ∧ eq_nocase e.value value)
      ∧ (is_ignored_value s field value = 0
        ↔ ¬ ∃ e ∈ s, eq_nocase e.opt field ∧ eq_nocase e.value value) := by
  induction s with
  | nil => simp [is_ignored_value]
  | cons o rest ih =>
    simp only [is_ignored_value, strcasecmp_eq_zero]
    by_cases h : eq_nocase o.opt field ∧ eq_nocase o.value value
    · simp [h]
    · obtain ⟨ih1, ih0⟩ := ih
      simp only [h, if_false, List.mem_cons, exists_eq_or_imp, false_or]
      exact ⟨ih1, ih0⟩

/-- C2: last write wins. For every sequence of `set_option_value` calls applied to the
empty store that writes fewer than 1024 distinct names, the sequence runs to a store, and
for every key `get_option_value(key)` on that store is the value of the last call whose
name equals the key ignoring ASCII case (calls with a NULL name or value not counted),
and NULL when there is no such call. -/
theorem get_option_value_last_write (calls : List set_call) (key : String)
    (h : distinct_names calls < OPTIONS_SIZE) :
    ∃ s, run_sets calls [] = some s ∧ get_option_value s key = last_write calls key := by
  obtain ⟨s, hrun, _, _, hget⟩ := run_sets_invariant calls (Nat.le_of_lt h)
  exact ⟨s, hrun, hget key⟩

/-- C2 at a sequence of five calls, two of them with a NULL argument, and the key "cOlOr". -/
theorem get_option_value_last_write_witness :
    distinct_names [(some "color", some "on"), (none, some "x"), (some "COLOR", some "off"),
        (some "syntax", none), (some "Color", some "1")] < OPTIONS_SIZE
      ∧ ∃ s, run_sets [(some "color", some "on"), (none, some "x"),
          (some "COLOR", some "off"), (some "syntax", none), (some "Color", some "1")] []
            = some s
        ∧ get_option_value s "cOlOr"
            = last_write [(some "color", some "on"), (none, some "x"),
                (some "COLOR", some "off"), (some "syntax", none), (some "Color", some "1")]
                "cOlOr" :=
  ⟨by decide, get_option_value_last_write _ _ (by decide)⟩

/-- C3: for every option store and key, `is_option_enabled(key)` returns 1 exactly when
the key has a value that equals "on" or "1" ignoring ASCII case, and 0 otherwise, in
particular when the key has no value; the result is always 0 or 1. -/
theorem is_option_enabled_iff (s : List option_opt_t) (key : String) :
    (is_option_enabled s key = 1
        ↔ ∃ v, get_option_value s key = some v ∧ (eq_nocase v "on" ∨ eq_nocase v "1"))
      ∧ (is_option_enabled s key = 0
        ↔ ¬ ∃ v, get_option_value s key = some v ∧ (eq_nocase v "on" ∨ eq_nocase v "1"))
      ∧ (get_option_value s key = none → is_option_enabled s key = 0)
      ∧ (is_option_enabled s key = 0 ∨ is_option_enabled s key = 1) := by
  unfold is_option_enabled
  cases hg : get_option_value s key with
  | none => simp
  | some v =>
    simp only [strcasecmp_eq_zero]
    by_cases h1 : eq_nocase v "on"
    · simp [h1]
    · by_cases h2 : eq_nocase v "1"
      · simp [h1, h2]
      · simp [h1, h2]

/-- C5: for every option store, key and expected string, `is_option_value(key, expected)`
returns 1 if and only if the key has a value and that value equals `expected` ignoring
ASCII case, and 0 otherwise; when the key has no value it returns 0 for every expected
string. -/
theorem is_option_value_iff (s : List option_opt_t) (key expected : String) :
    (is_option_value s key expected = 1
        ↔ ∃ v, get_option_value s key = some v ∧ eq_nocase v expected)
      ∧ (is_option_value s key expected = 0
        ↔ ¬ ∃ v, get_option_value s key = some v ∧ eq_nocase v expected)
      ∧ (get_option_value s key = none → ∀ e, is_option_value s key e = 0) := by
  unfold is_option_value
  cases hg : get_option_value s key with
  | none => simp
  | some v =>
    simp only [strcasecmp_eq_zero]
    by_cases h : eq_nocase v expected <;> simp [h]

/-- C4: when none of /etc/sngreprc, /usr/local/etc/sngreprc and $HOME/.sngreprc can be
opened (and the path of the last one fits the buffer `userconf`), `init_options` on the
empty store returns 0 and leaves a store in which `match.ignorecase`, `match.invert` and
`filter.enable` have a value, are not enabled and are disabled, and in which
`filter.REGISTER`, `filter.INVITE`, `filter.SUBSCRIBE`, `filter.NOTIFY`, `filter.OPTIONS`,
`filter.PUBLISH` and `filter.MESSAGE` have a value and are enabled. -/
theorem init_options_core_keys (fs : String → Option (List conf_line))
    (home : Option String)
    (h1 : fs "/etc/sngreprc" = none) (h2 : fs "/usr/local/etc/sngreprc" = none)
    (h3 : ∀ h, home = some h →
      h.length + 10 + 1 ≤ USERCONF_SIZE ∧ fs (h ++ "/.sngreprc") = none) :
    ∃ s, init_options fs home [] = some (s, 0)
      ∧ (∀ k ∈ ["match.ignorecase", "match.invert", "filter.enable"],
          get_option_value s k ≠ none ∧ is_option_enabled s k = 0
            ∧ is_option_disabled s k = 1)
      ∧ (∀ k ∈ ["filter.REGISTER", "filter.INVITE", "filter.SUBSCRIBE", "filter.NOTIFY",
            "filter.OPTIONS", "filter.PUBLISH", "filter.MESSAGE"],
          get_option_value s k ≠ none ∧ is_option_enabled s k = 1) := by
  obtain ⟨s, hinit, hget⟩ := init_options_unreadable fs home h1 h2 h3
  refine ⟨s, hinit, ?_, ?_⟩
  · intro k hk
    have hoff : get_option_value s k = some "off" := by
      simp only [List.mem_cons, List.mem_singleton, List.not_mem_nil, or_false] at hk
      rcases hk with rfl | rfl | rfl
      · rw [hget _ (by decide)]; decide
      · rw [hget _ (by decide)]; decide
      · rw [hget _ (by decide)]; decide
    unfold is_option_enabled is_option_disabled
    rw [hoff]
    decide
  · intro k hk
    have hon : get_option_value s k = some "on" := by
      simp only [List.mem_cons, List.mem_singleton, List.not_mem_nil, or_false] at hk
      rcases hk with rfl | rfl | rfl | rfl | rfl | rfl | rfl
      · rw [hget _ (by decide)]; decide
      · rw [hget _ (by decide)]; decide
      · rw [hget _ (by decide)]; decide
      · rw [hget _ (by decide)]; decide
      · rw [hget _ (by decide)]; decide
      · rw [hget _ (by decide)]; decide
      · rw [hget _ (by decide)]; decide
    unfold is_option_enabled
    rw [hon]
    decide

/-- C4 with HOME set to "/home/kaian" and no file that can be opened. -/
theorem init_options_core_keys_witness :
    ∃ s, init_options (fun _ => none) (some "/home/kaian") [] = some (s, 0)
      ∧ (∀ k ∈ ["match.ignorecase", "match.invert", "filter.enable"],
          get_option_value s k ≠ none ∧ is_option_enabled s k = 0
            ∧ is_option_disabled s k = 1)
      ∧ (∀ k ∈ ["filter.REGISTER", "filter.INVITE", "filter.SUBSCRIBE", "filter.NOTIFY",
            "filter.OPTIONS", "filter.PUBLISH", "filter.MESSAGE"],
          get_option_value s k ≠ none ∧ is_option_enabled s k = 1) :=
  init_options_core_keys (fun _ => none) (some "/home/kaian") rfl rfl
    (fun h hh => by cases hh; exact ⟨by decide, rfl⟩)

/-! ## Chains of handles -/

theorem list_nil_or_snoc (l : List Nat) : l = [] ∨ ∃ pre x, l = pre ++ [x] := by
  rcases List.eq_nil_or_concat l with h | ⟨pre, x, h⟩
  · exact Or.inl h
  · exact Or.inr ⟨pre, x, by rw [h, List.concat_eq_append]⟩

theorem getLast?_snoc (pre : List Nat) (x : Nat) : (pre ++ [x]).getLast? = some x := by
  simp

theorem not_mem_of_nodup_append (pre rest : List Nat) (x : Nat)
    (h : (pre ++ x :: rest).Nodup) : x ∉ pre := by
  intro hx
  exact (List.nodup_append.mp h).2.2 hx (by simp)

theorem dropWhile_ne_append (pre rest : List Nat) (x : Nat) (hx : x ∉ pre) :
    (pre ++ x :: rest).dropWhile (fun y => y ≠ x) = x :: rest := by
  induction pre with
  | nil =>
    rw [List.nil_append, List.dropWhile_cons_of_neg]
    simp
  | cons p ps ih =>
    have hp : p ≠ x := fun h => hx (by simp [h])
    have hps : x ∉ ps := fun h => hx (by simp [h])
    rw [List.cons_append, List.dropWhile_cons_of_pos (by simpa using hp)]
    exact ih hps

theorem takeWhile_ne_append (pre rest : List Nat) (x : Nat) (hx : x ∉ pre) :
    (pre ++ x :: rest).takeWhile (fun y => y ≠ x) = pre := by
  induction pre with
  | nil =>
    rw [List.nil_append, List.takeWhile_cons_of_neg]
    simp
  | cons p ps ih =>
    have hp : p ≠ x := fun h => hx (by simp [h])
    have hps : x ∉ ps := fun h => hx (by simp [h])
    rw [List.cons_append, List.takeWhile_cons_of_pos (by simpa using hp), ih hps]

theorem chain_next_append (pre rest : List Nat) (x : Nat) (hx : x ∉ pre) :
    chain_next (pre ++ x :: rest) x = rest.head? := by
  unfold chain_next
  rw [dropWhile_ne_append pre rest x hx]
  rfl

theorem chain_prev_append (pre rest : List Nat) (x : Nat) (hx : x ∉ pre) :
    chain_prev (pre ++ x :: rest) x = pre.getLast? := by
  unfold chain_prev
  rw [takeWhile_ne_append pre rest x hx, if_pos (by simp)]

/-! ## Messages of a call -/

theorem call_add_message_msgs (policy : List sip_msg → String) (st : sip_state)
    (c m : Nat) :
    ((call_add_message policy st c m).call c).msgs = (st.call c).msgs ++ [m] := by
  simp [call_add_message, call_update_state]

theorem add_messages_msgs (policy : List sip_msg → String) (st : sip_state) (c : Nat)
    (ms : List Nat) :
    ((add_messages policy st c ms).call c).msgs = (st.call c).msgs ++ ms := by
  induction ms generalizing st with
  | nil => simp [add_messages]
  | cons m rest ih =>
    have h := ih (call_add_message policy st c m)
    simp only [add_messages, List.foldl_cons] at h ⊢
    rw [h, call_add_message_msgs, List.append_assoc]
    rfl

theorem call_get_next_msg_at (st : sip_state) (c : Nat) (pre rest : List Nat) (x : Nat)
    (hl : (st.call c).msgs = pre ++ x :: rest) (hnd : (pre ++ x :: rest).Nodup) :
    call_get_next_msg st c (some x) = rest.head? := by
  show chain_next (st.call c).msgs x = rest.head?
  rw [hl]
  exact chain_next_append pre rest x (not_mem_of_nodup_append pre rest x hnd)

theorem call_get_prev_msg_at (st : sip_state) (c : Nat) (pre rest : List Nat) (x : Nat)
    (hl : (st.call c).msgs = pre ++ x :: rest) (hnd : (pre ++ x :: rest).Nodup) :
    call_get_prev_msg st c x = pre.getLast? := by
  show chain_prev (st.call c).msgs x = pre.getLast?
  rw [hl]
  exact chain_prev_append pre rest x (not_mem_of_nodup_append pre rest x hnd)

theorem next_msg_walk_some (st : sip_state) (c : Nat) (pre rest : List Nat) (x n : Nat)
    (hl : (st.call c).msgs = pre ++ x :: rest) (hnd : (pre ++ x :: rest).Nodup)
    (hn : rest.length ≤ n) :
    next_msg_walk st c n (some x) = rest := by
  induction rest generalizing pre x n with
  | nil =>
    cases n with
    | zero => rfl
    | succ k =>
      simp only [next_msg_walk, call_get_next_msg_at st c pre [] x hl hnd, List.head?_nil]
  | cons r rs ih =>
    cases n with
    | zero => simp at hn
    | succ k =>
      have hl' : (st.call c).msgs = (pre ++ [x]) ++ r :: rs := by simp [hl]
      have hnd' : ((pre ++ [x]) ++ r :: rs).Nodup := by simpa using hnd
      have hk : rs.length ≤ k := by simpa using hn
      simp only [next_msg_walk, call_get_next_msg_at st c pre (r :: rs) x hl hnd,
        List.head?_cons, ih (pre ++ [x]) r k hl' hnd' hk]

theorem next_msg_walk_none (st : sip_state) (c : Nat) (l : List Nat) (n : Nat)
    (hl : (st.call c).msgs = l) (hnd : l.Nodup) (hn : l.length ≤ n) :
    next_msg_walk st c n none = l := by
  cases l with
  | nil =>
    cases n with
    | zero => rfl
    | succ k => simp [next_msg_walk, call_get_next_msg, hl]
  | cons x rest =>
    cases n with
    | zero => simp at hn
    | succ k =>
      have hk : rest.length ≤ k := by simpa using hn
      have hw := next_msg_walk_some st c [] rest x k (by simpa using hl)
        (by simpa using hnd) hk
      simp only [next_msg_walk, call_get_next_msg, hl, List.head?_cons, hw]

theorem prev_msg_walk_eq (st : sip_state) (c : Nat) (pre rest : List Nat) (x n : Nat)
    (hl : (st.call c).msgs = pre ++ x :: rest) (hnd : (pre ++ x :: rest).Nodup)
    (hn : pre.length ≤ n) :
    prev_msg_walk st c n x = pre.reverse := by
  induction pre using List.reverseRecOn generalizing rest x n with
  | nil =>
    cases n with
    | zero => rfl
    | succ k =>
      simp only [prev_msg_walk, call_get_prev_msg_at st c [] rest x hl hnd,
        List.getLast?_nil, List.reverse_nil]
  | append_singleton ps p ih =>
    cases n with
    | zero => simp at hn
    | succ k =>
      have hl' : (st.call c).msgs = ps ++ p :: (x :: rest) := by simp [hl]
      have hnd' : (ps ++ p :: (x :: rest)).Nodup := by simpa using hnd
      have hk : ps.length ≤ k := by simpa using hn
      simp only [prev_msg_walk, call_get_prev_msg_at st c (ps ++ [p]) rest x hl hnd,
        getLast?_snoc,
        ih (x :: rest) p k hl' hnd' hk, List.reverse_append, List.reverse_singleton,
        List.singleton_append, List.reverse_cons, List.reverse_nil, List.nil_append]

/-- C6: for every call as `sip_call_create` returns it and every list of N distinct
messages appended to it one by one with `call_add_message`, `call_msg_count` returns N;
`call_get_next_msg` applied N times starting from NULL yields the messages in append
order and one more application yields NULL; `call_get_prev_msg` applied repeatedly from
the last message yields the messages in reverse order and returns NULL on the first. -/
theorem call_messages_in_append_order (policy : List sip_msg → String) (st : sip_state)
    (callid : String) (ms : List Nat) (hms : ms.Nodup) :
    call_msg_count (add_messages policy (sip_call_create st callid).1
        (sip_call_create st callid).2 ms) (sip_call_create st callid).2 = ms.length
      ∧ next_msg_walk (add_messages policy (sip_call_create st callid).1
          (sip_call_create st callid).2 ms) (sip_call_create st callid).2 ms.length none = ms
      ∧ call_get_next_msg (add_messages policy (sip_call_create st callid).1
          (sip_call_create st callid).2 ms) (sip_call_create st callid).2 ms.getLast? = none
      ∧ (∀ last, ms.getLast? = some last →
          last :: prev_msg_walk (add_messages policy (sip_call_create st callid).1
            (sip_call_create st callid).2 ms) (sip_call_create st callid).2 ms.length last
              = ms.reverse)
      ∧ (∀ first, ms.head? = some first →
          call_get_prev_msg (add_messages policy (sip_call_create st callid).1
            (sip_call_create st callid).2 ms) (sip_call_create st callid).2 first = none) := by
  have hmsgs : ((add_messages policy (sip_call_create st callid).1
      (sip_call_create st callid).2 ms).call (sip_call_create st callid).2).msgs = ms := by
    rw [add_messages_msgs]
    simp [sip_call_create]
  generalize add_messages policy (sip_call_create st callid).1
      (sip_call_create st callid).2 ms = st2 at hmsgs ⊢
  generalize (sip_call_create st callid).2 = c at hmsgs ⊢
  refine ⟨by simp [call_msg_count, hmsgs],
    next_msg_walk_none st2 c ms ms.length hmsgs hms (le_refl _), ?_, ?_, ?_⟩
  · rcases list_nil_or_snoc ms with rfl | ⟨pre, x, rfl⟩
    · simp [call_get_next_msg, hmsgs]
    · rw [getLast?_snoc,
        call_get_next_msg_at st2 c pre [] x hmsgs hms]
      rfl
  · intro last hlast
    rcases list_nil_or_snoc ms with rfl | ⟨pre, x, rfl⟩
    · simp at hlast
    · have hxl : x = last := by simpa using hlast
      subst hxl
      rw [prev_msg_walk_eq st2 c pre [] x _ hmsgs hms (by simp)]
      simp
  · intro first hfirst
    cases ms with
    | nil => simp at hfirst
    | cons x rest =>
      have hxf : x = first := by simpa using hfirst
      subst hxf
      rw [call_get_prev_msg_at st2 c [] rest x (by simpa using hmsgs) (by simpa using hms)]
      rfl

/-- C6 for the messages 0, 1 and 2 appended to a new call with Call-ID "abc123". -/
theorem call_messages_in_append_order_witness :
    [0, 1, 2].Nodup
      ∧ call_msg_count
          (add_messages (fun _ => "calling") (sip_call_create sip_state_init "abc123").1
            (sip_call_create sip_state_init "abc123").2 [0, 1, 2])
          (sip_call_create sip_state_init "abc123").2 = 3
      ∧ next_msg_walk
          (add_messages (fun _ => "calling") (sip_call_create sip_state_init "abc123").1
            (sip_call_create sip_state_init "abc123").2 [0, 1, 2])
          (sip_call_create sip_state_init "abc123").2 3 none = [0, 1, 2]
      ∧ 2 :: prev_msg_walk
          (add_messages (fun _ => "calling") (sip_call_create sip_state_init "abc123").1
            (sip_call_create sip_state_init "abc123").2 [0, 1, 2])
          (sip_call_create sip_state_init "abc123").2 3 2 = [2, 1, 0] :=
  ⟨by decide,
    (call_messages_in_append_order (fun _ => "calling") sip_state_init "abc123" [0, 1, 2]
      (by decide)).1,
    (call_messages_in_append_order (fun _ => "calling") sip_state_init "abc123" [0, 1, 2]
      (by decide)).2.1,
    (call_messages_in_append_order (fun _ => "calling") sip_state_init "abc123" [0, 1, 2]
      (by decide)).2.2.2.1 2 rfl⟩

/-! ## Legs of a session -/

theorem find?_first (p : Nat → Bool) (pre post : List Nat) (b : Nat)
    (hpre : ∀ c ∈ pre, p c = false) (hb : p b = true) :
    (pre ++ b :: post).find? p = some b := by
  induction pre with
  | nil => simp [List.find?, hb]
  | cons q qs ih =>
    have hq : p q = false := hpre q (by simp)
    have hqs : ∀ c ∈ qs, p c = false := fun c hc => hpre c (by simp [hc])
    simp [List.find?, hq, ih hqs]

/-- C7, as stated, fails in both directions of the pairing. In `chained_legs_state` call 0
has X-Call-ID "b" and call 1 has Call-ID "b", yet `call_get_xcall` of call 1 is NULL,
because call 1 has an X-Call-ID of its own that no call answers to. In
`shared_leg_state` call 1 has X-Call-ID "b" and call 2 has Call-ID "b", yet
`call_get_xcall` of call 2 is call 0, the first call that names it. -/
theorem call_get_xcall_counterexample :
    (call_xcallid chained_legs_state 0 = some "b"
        ∧ call_callid chained_legs_state 1 = some "b"
        ∧ call_get_xcall chained_legs_state 0 = some 1
        ∧ call_get_xcall chained_legs_state 1 = none)
      ∧ (call_xcallid shared_leg_state 1 = some "b"
        ∧ call_callid shared_leg_state 2 = some "b"
        ∧ call_get_xcall shared_leg_state 1 = some 2
        ∧ call_get_xcall shared_leg_state 2 = some 0) := by
  decide

/-- A call with an X-Call-ID resolves to the first call of the index whose Call-ID
equals it. -/
theorem call_get_xcall_named (st : sip_state) (a b : Nat) (x y : String)
    (preb postb : List Nat) (hcallsb : st.calls = preb ++ b :: postb)
    (hax : call_xcallid st a = some x) (hby : call_callid st b = some y)
    (hxy : eq_nocase x y)
    (hfb : ∀ c ∈ preb, ∀ v, call_callid st c = some v → ¬ eq_nocase v x) :
    call_get_xcall st a = some b := by
  unfold call_get_xcall
  unfold call_xcallid at hax
  rw [hax]
  show call_find_by_callid st x = some b
  unfold call_find_by_callid
  rw [hcallsb]
  apply find?_first
  · intro c hc
    cases hv : sip_attr_get (st.call c).attrs .CALLID with
    | none => rfl
    | some v =>
      have := hfb c hc v hv
      simp [strcasecmp_eq_zero, this]
  · unfold call_callid at hby
    rw [hby]
    simp [strcasecmp_eq_zero, eq_nocase_symm hxy]

/-- A call without an X-Call-ID resolves to the first call of the index whose X-Call-ID
equals its Call-ID. -/
theorem call_get_xcall_naming (st : sip_state) (a b : Nat) (x y : String)
    (prea posta : List Nat) (hcallsa : st.calls = prea ++ a :: posta)
    (hax : call_xcallid st a = some x) (hby : call_callid st b = some y)
    (hxy : eq_nocase x y) (hbx : call_xcallid st b = none)
    (hfa : ∀ c ∈ prea, ∀ v, call_xcallid st c = some v → ¬ eq_nocase v y) :
    call_get_xcall st b = some a := by
  unfold call_get_xcall
  unfold call_xcallid at hbx
  unfold call_callid at hby
  rw [hbx, hby]
  show call_find_by_xcallid st y = some a
  unfold call_find_by_xcallid
  rw [hcallsa]
  apply find?_first
  · intro c hc
    cases hv : sip_attr_get (st.call c).attrs .XCALLID with
    | none => rfl
    | some v =>
      have := hfa c hc v hv
      simp [strcasecmp_eq_zero, this]
  · unfold call_xcallid at hax
    rw [hax]
    simp [strcasecmp_eq_zero, hxy]

/-- In every index `call_get_xcall` returns NULL for a call to which no call of the index
is linked in either direction. -/
theorem call_get_xcall_unlinked (st : sip_state) (c : Nat)
    (hno : ∀ d ∈ st.calls, ¬ legs_linked st c d) : call_get_xcall st c = none := by
  unfold call_get_xcall
  cases hx : sip_attr_get (st.call c).attrs .XCALLID with
  | some x =>
    show call_find_by_callid st x = none
    unfold call_find_by_callid
    rw [List.find?_eq_none]
    intro d hd
    cases hv : sip_attr_get (st.call d).attrs .CALLID with
    | none => simp
    | some v =>
      have hne : ¬ eq_nocase v x := fun h =>
        hno d hd (Or.inl ⟨x, v, hx, hv, eq_nocase_symm h⟩)
      simp [strcasecmp_eq_zero, hne]
  | none =>
    cases hid : sip_attr_get (st.call c).attrs .CALLID with
    | none => rfl
    | some id =>
      show call_find_by_xcallid st id = none
      unfold call_find_by_xcallid
      rw [List.find?_eq_none]
      intro d hd
      cases hv : sip_attr_get (st.call d).attrs .XCALLID with
      | none => simp
      | some v =>
        have hne : ¬ eq_nocase v id := fun h =>
          hno d hd (Or.inr ⟨v, id, hv, hid, h⟩)
        simp [strcasecmp_eq_zero, hne]

theorem not_names_leg_of_no_xcallid (st : sip_state) (a b : Nat)
    (h : call_xcallid st a = none) : ¬ names_leg st a b := by
  rintro ⟨x, y, hx, _, _⟩
  rw [h] at hx
  cases hx

theorem not_names_leg_of_values (st : sip_state) (a b : Nat) (x y : String)
    (hx : call_xcallid st a = some x) (hy : call_callid st b = some y)
    (hne : ¬ eq_nocase x y) : ¬ names_leg st a b := by
  rintro ⟨x', y', hx', hy', hxy⟩
  rw [hx] at hx'
  rw [hy] at hy'
  cases hx'
  cases hy'
  exact hne hxy

/-- C7 (amended): in every call index, (1) let call `a` have X-Call-ID `x` and be the
first call in index order whose X-Call-ID equals `x`, and let call `b` be the first call
in index order whose Call-ID equals `x`, with no X-Call-ID attribute of its own (all
comparisons ignoring case); then `call_get_xcall` resolves `a` to `b` and `b` to `a`,
wherever the two stand in the index. And (2), with no condition on the index,
`call_get_xcall` returns NULL for every call to which no call of the index is linked in
either direction. -/
theorem call_get_xcall_legs (st : sip_state) :
    (∀ (a b : Nat) (x y : String) (prea posta preb postb : List Nat),
        st.calls = prea ++ a :: posta → st.calls = preb ++ b :: postb →
        call_xcallid st a = some x → call_callid st b = some y →
        eq_nocase x y → call_xcallid st b = none →
        (∀ c ∈ prea, ∀ v, call_xcallid st c = some v → ¬ eq_nocase v y) →
        (∀ c ∈ preb, ∀ v, call_callid st c = some v → ¬ eq_nocase v x) →
        call_get_xcall st a = some b ∧ call_get_xcall st b = some a)
      ∧ (∀ c, (∀ d ∈ st.calls, ¬ legs_linked st c d) → call_get_xcall st c = none) := by
  constructor
  · intro a b x y prea posta preb postb hcallsa hcallsb hax hby hxy hbx hfa hfb
    exact ⟨call_get_xcall_named st a b x y preb postb hcallsb hax hby hxy hfb,
      call_get_xcall_naming st a b x y prea posta hcallsa hax hby hxy hbx hfa⟩
  · exact call_get_xcall_unlinked st

/-- C7 (amended) at concrete indices: in `two_legs_state`, where the leg that is named
was inserted first, each leg resolves to the other; in `unlinked_calls_state` and in the
empty index, where no call is linked to another, `call_get_xcall` returns NULL. -/
theorem call_get_xcall_legs_witness :
    (call_get_xcall two_legs_state 1 = some 0 ∧ call_get_xcall two_legs_state 0 = some 1)
      ∧ call_get_xcall unlinked_calls_state 0 = none
      ∧ call_get_xcall unlinked_calls_state 1 = none
      ∧ call_get_xcall sip_state_init 0 = none :=
  ⟨(call_get_xcall_legs two_legs_state).1 1 0 "B" "b" [0] [] [] [1] rfl rfl
      (by decide) (by decide) (by decide) (by decide)
      (fun c hc v hv => by
        have hc0 : c = 0 := by simpa using hc
        subst hc0
        have hnone : call_xcallid two_legs_state 0 = none := by decide
        rw [hnone] at hv
        cases hv)
      (fun c hc => by simp at hc),
    (call_get_xcall_legs unlinked_calls_state).2 0 (fun d hd => by
      have hd' : d = 0 ∨ d = 1 := by simpa [unlinked_calls_state] using hd
      have h0 : call_xcallid unlinked_calls_state 0 = some "z" := by decide
      have h1 : call_xcallid unlinked_calls_state 1 = none := by decide
      rcases hd' with rfl | rfl
      · rintro (h | h)
        · exact not_names_leg_of_values _ 0 0 "z" "a" h0 (by decide) (by decide) h
        · exact not_names_leg_of_values _ 0 0 "z" "a" h0 (by decide) (by decide) h
      · rintro (h | h)
        · exact not_names_leg_of_values _ 0 1 "z" "b" h0 (by decide) (by decide) h
        · exact not_names_leg_of_no_xcallid _ 1 0 h1 h),
    (call_get_xcall_legs unlinked_calls_state).2 1 (fun d hd => by
      have hd' : d = 0 ∨ d = 1 := by simpa [unlinked_calls_state] using hd
      have h0 : call_xcallid unlinked_calls_state 0 = some "z" := by decide
      have h1 : call_xcallid unlinked_calls_state 1 = none := by decide
      rcases hd' with rfl | rfl
      · rintro (h | h)
        · exact not_names_leg_of_no_xcallid _ 1 0 h1 h
        · exact not_names_leg_of_values _ 0 1 "z" "b" h0 (by decide) (by decide) h
      · rintro (h | h)
        · exact not_names_leg_of_no_xcallid _ 1 1 h1 h
        · exact not_names_leg_of_no_xcallid _ 1 1 h1 h),
    (call_get_xcall_legs sip_state_init).2 0 (fun d hd => by
      simp [sip_state_init] at hd)⟩

/-! ## Retransmissions -/

theorem call_add_message_msg_self (policy : List sip_msg → String) (st : sip_state)
    (c m : Nat) :
    (call_add_message policy st c m).msg m = { st.msg m with call := some c } := by
  simp [call_add_message, call_update_state]

theorem call_add_message_msg_other (policy : List sip_msg → String) (st : sip_state)
    (c m k : Nat) (hk : k ≠ m) :
    (call_add_message policy st c m).msg k = st.msg k := by
  simp [call_add_message, call_update_state, Function.update_noteq hk]

/-- C8: for every call and every two distinct messages appended consecutively to it
that have the same source and destination, `msg_is_retrans` on the second returns 1 if
and only if its payload is identical to the payload of the first, and 0 otherwise; in
particular a difference at any single byte position makes it return 0. -/
theorem msg_is_retrans_iff (policy : List sip_msg → String) (st : sip_state)
    (c m1 m2 : Nat) (hne : m1 ≠ m2) (hnew : m2 ∉ (st.call c).msgs)
    (hsame : same_endpoints (st.msg m1) (st.msg m2) = true) :
    (msg_is_retrans (call_add_message policy (call_add_message policy st c m1) c m2) m2 = 1
        ↔ (st.msg m2).payload = (st.msg m1).payload)
      ∧ (msg_is_retrans (call_add_message policy (call_add_message policy st c m1) c m2) m2
            = 0
        ↔ (st.msg m2).payload ≠ (st.msg m1).payload)
      ∧ (∀ i : Nat, (st.msg m2).payload.data[i]? ≠ (st.msg m1).payload.data[i]? →
          msg_is_retrans (call_add_message policy (call_add_message policy st c m1) c m2) m2
            = 0) := by
  have hmsgs : ((call_add_message policy (call_add_message policy st c m1) c m2).call c).msgs
      = (st.call c).msgs ++ m1 :: [m2] := by
    rw [call_add_message_msgs, call_add_message_msgs, List.append_assoc]
    rfl
  have hm2 : (call_add_message policy (call_add_message policy st c m1) c m2).msg m2
      = { st.msg m2 with call := some c } := by
    rw [call_add_message_msg_self, call_add_message_msg_other _ _ _ _ _ (Ne.symm hne)]
  have hm1 : (call_add_message policy (call_add_message policy st c m1) c m2).msg m1
      = { st.msg m1 with call := some c } := by
    rw [call_add_message_msg_other _ _ _ _ _ hne, call_add_message_msg_self]
  have htake : (((st.call c).msgs ++ m1 :: [m2]).takeWhile fun m => m ≠ m2).reverse
      = m1 :: (st.call c).msgs.reverse := by
    have h := takeWhile_ne_append ((st.call c).msgs ++ [m1]) [] m2
      (by simp [hnew, Ne.symm hne])
    rw [List.append_assoc] at h
    simp only [List.singleton_append] at h
    rw [h]
    simp
  have hval : msg_is_retrans
      (call_add_message policy (call_add_message policy st c m1) c m2) m2
      = if (st.msg m1).payload = (st.msg m2).payload then 1 else 0 := by
    unfold msg_is_retrans
    rw [hm2]
    simp only
    rw [hmsgs, htake, List.find?_cons]
    have hse : same_endpoints
        ((call_add_message policy (call_add_message policy st c m1) c m2).msg m1)
        { st.msg m2 with call := some c } = true := by
      rw [hm1]
      simpa [same_endpoints] using hsame
    rw [hse]
    simp only [hm1]
  rw [hval]
  refine ⟨?_, ?_, ?_⟩
  · by_cases h : (st.msg m1).payload = (st.msg m2).payload
    · simp [h]
    · have h2 : ¬ (st.msg m2).payload = (st.msg m1).payload := fun e => h e.symm
      simp [h, h2]
  · by_cases h : (st.msg m1).payload = (st.msg m2).payload
    · simp [h]
    · have h2 : ¬ (st.msg m2).payload = (st.msg m1).payload := fun e => h e.symm
      simp [h, h2]
  · intro i hi
    have h : (st.msg m1).payload ≠ (st.msg m2).payload := by
      intro heq
      apply hi
      rw [heq]
    simp [h]

/-- C8 for the two messages of `retrans_state`, which carry the same payload. -/
theorem msg_is_retrans_iff_witness :
    (0 : Nat) ≠ 1 ∧ 1 ∉ (retrans_state.call 0).msgs
      ∧ same_endpoints (retrans_state.msg 0) (retrans_state.msg 1) = true
      ∧ msg_is_retrans
          (call_add_message (fun _ => "calling")
            (call_add_message (fun _ => "calling") retrans_state 0 0) 0 1) 1 = 1 :=
  ⟨by decide, by decide, by decide,
    (msg_is_retrans_iff (fun _ => "calling") retrans_state 0 0 1 (by decide) (by decide)
      (by decide)).1.mpr (by decide)⟩

/-! ## Decimal fields -/

theorem digitChar_digit (d : Nat) (hd : d < 10) :
    is_digit (Nat.digitChar d) = true ∧ (Nat.digitChar d).toNat - 48 = d := by
  revert d
  decide

theorem dec_value_snoc (cs : List Char) (c : Char) :
    dec_value (cs ++ [c]) = 10 * dec_value cs + (c.toNat - 48) := by
  simp [dec_value, List.foldl_append]

theorem toDigitsCore_spec (fuel : Nat) :
    ∀ n ds, n < fuel →
      ∃ cs, Nat.toDigitsCore 10 fuel n ds = cs ++ ds ∧ cs ≠ []
        ∧ (∀ c ∈ cs, is_digit c = true) ∧ dec_value cs = n := by
  induction fuel with
  | zero => intro n ds h; omega
  | succ f ih =>
    intro n ds hn
    obtain ⟨hdig, hval⟩ := digitChar_digit (n % 10) (Nat.mod_lt _ (by decide))
    by_cases h0 : n / 10 = 0
    · refine ⟨[Nat.digitChar (n % 10)], ?_, by simp, ?_, ?_⟩
      · simp [Nat.toDigitsCore, h0]
      · intro c hc
        simp only [List.mem_singleton] at hc
        rw [hc]; exact hdig
      · have : dec_value [Nat.digitChar (n % 10)] = (Nat.digitChar (n % 10)).toNat - 48 := by
          simp [dec_value]
        rw [this, hval]
        omega
    · have hlt : n / 10 < f := by omega
      obtain ⟨cs, hcs, _, hall, hv⟩ := ih (n / 10) (Nat.digitChar (n % 10) :: ds) hlt
      refine ⟨cs ++ [Nat.digitChar (n % 10)], ?_, by simp, ?_, ?_⟩
      · simp [Nat.toDigitsCore, h0, hcs]
      · intro c hc
        rcases List.mem_append.mp hc with h | h
        · exact hall c h
        · simp only [List.mem_singleton] at h
          rw [h]; exact hdig
      · rw [dec_value_snoc, hv, hval]
        omega

theorem fmt_number_spec (n : Nat) :
    fmt_number n ≠ [] ∧ (∀ c ∈ fmt_number n, is_digit c = true)
      ∧ dec_value (fmt_number n) = n := by
  obtain ⟨cs, hcs, hne, hall, hv⟩ := toDigitsCore_spec (n + 1) n [] (Nat.lt_succ_self n)
  have : fmt_number n = cs := by
    simp [fmt_number, Nat.toDigits, hcs]
  rw [this]
  exact ⟨hne, hall, hv⟩

theorem parse_number_of_digits (cs : List Char) (hne : cs ≠ [])
    (hall : ∀ c ∈ cs, is_digit c = true) : parse_number cs = some (dec_value cs) := by
  unfold parse_number
  rw [if_pos]
  exact ⟨hne, List.all_eq_true.mpr hall⟩

theorem parse_number_fmt (n : Nat) : parse_number (fmt_number n) = some n := by
  obtain ⟨hne, hall, hv⟩ := fmt_number_spec n
  rw [parse_number_of_digits _ hne hall, hv]

theorem dec_value_zeros (k : Nat) (cs : List Char) :
    dec_value (List.replicate k '0' ++ cs) = dec_value cs := by
  induction k with
  | zero => simp
  | succ j ih =>
    have : dec_value ('0' :: (List.replicate j '0' ++ cs))
        = dec_value (List.replicate j '0' ++ cs) := by
      simp [dec_value]
    rw [List.replicate_succ, List.cons_append, this, ih]

theorem fmt_number_length (n w : Nat) (hw : 0 < w) (hn : n < 10 ^ w) :
    (fmt_number n).length ≤ w :=
  Nat.toDigitsCore_length 10 (by decide) (n + 1) n w hn hw

theorem fmt_padded_spec (w n : Nat) (hw : 0 < w) (hn : n < 10 ^ w) :
    (fmt_padded w n).length = w ∧ (∀ c ∈ fmt_padded w n, is_digit c = true)
      ∧ dec_value (fmt_padded w n) = n := by
  obtain ⟨_, hall, hv⟩ := fmt_number_spec n
  have hlen := fmt_number_length n w hw hn
  refine ⟨?_, ?_, ?_⟩
  · simp only [fmt_padded, List.length_append, List.length_replicate]
    omega
  · intro c hc
    rcases List.mem_append.mp hc with h | h
    · rw [(List.mem_replicate.mp h).2]
      decide
    · exact hall c h
  · rw [fmt_padded, dec_value_zeros, hv]

theorem parse_fixed_fmt (w n : Nat) (hw : 0 < w) (hn : n < 10 ^ w) :
    parse_fixed w (fmt_padded w n) = some n := by
  obtain ⟨hlen, hall, hv⟩ := fmt_padded_spec w n hw hn
  have hne : fmt_padded w n ≠ [] := by
    intro h
    rw [h] at hlen
    simp at hlen
    omega
  unfold parse_fixed
  rw [if_pos hlen, parse_number_of_digits _ hne hall, hv]

theorem not_mem_of_digits (cs : List Char) (hall : ∀ c ∈ cs, is_digit c = true)
    (sep : Char) (hsep : is_digit sep = false) : sep ∉ cs := by
  intro h
  rw [hall sep h] at hsep
  cases hsep

/-! ## Fields between separators -/

theorem splitOn_two (sep : Char) (a b : List Char) (ha : sep ∉ a) (hb : sep ∉ b) :
    (a ++ sep :: b).splitOn sep = [a, b] := by
  have h := List.splitOn_intercalate [a, b] sep
    (by intro l hl; simp at hl; rcases hl with rfl | rfl <;> assumption) (by simp)
  simpa [List.intercalate] using h

theorem splitOn_three (sep : Char) (a b c : List Char) (ha : sep ∉ a) (hb : sep ∉ b)
    (hc : sep ∉ c) :
    (a ++ sep :: (b ++ sep :: c)).splitOn sep = [a, b, c] := by
  have h := List.splitOn_intercalate [a, b, c] sep
    (by intro l hl; simp at hl; rcases hl with rfl | rfl | rfl <;> assumption) (by simp)
  simpa [List.intercalate] using h

theorem splitOn_four (sep : Char) (a b c d : List Char) (ha : sep ∉ a) (hb : sep ∉ b)
    (hc : sep ∉ c) (hd : sep ∉ d) :
    (a ++ sep :: (b ++ sep :: (c ++ sep :: d))).splitOn sep = [a, b, c, d] := by
  have h := List.splitOn_intercalate [a, b, c, d] sep
    (by intro l hl; simp at hl; rcases hl with rfl | rfl | rfl | rfl <;> assumption)
    (by simp)
  simpa [List.intercalate] using h

theorem splitOn_six (sep : Char) (a b c d e f : List Char) (ha : sep ∉ a) (hb : sep ∉ b)
    (hc : sep ∉ c) (hd : sep ∉ d) (he : sep ∉ e) (hf : sep ∉ f) :
    (a ++ sep :: (b ++ sep :: (c ++ sep :: (d ++ sep :: (e ++ sep :: f))))).splitOn sep
      = [a, b, c, d, e, f] := by
  have h := List.splitOn_intercalate [a, b, c, d, e, f] sep
    (by intro l hl; simp at hl; rcases hl with rfl | rfl | rfl | rfl | rfl | rfl <;> assumption)
    (by simp)
  simpa [List.intercalate] using h

/-! ## The capture header line -/

theorem fmt_padded_no_sep (w n : Nat) (hw : 0 < w) (hn : n < 10 ^ w) (sep : Char)
    (hsep : is_digit sep = false) : sep ∉ fmt_padded w n :=
  not_mem_of_digits _ (fmt_padded_spec w n hw hn).2.1 sep hsep

theorem fmt_number_no_sep (n : Nat) (sep : Char) (hsep : is_digit sep = false) :
    sep ∉ fmt_number n :=
  not_mem_of_digits _ (fmt_number_spec n).2.1 sep hsep

theorem parse_date_text (t : capture_time) (hd : t.day < 100) (hm : t.month < 100)
    (hy : t.year < 100) : parse_date (date_text t) = some (t.day, t.month, t.year) := by
  unfold parse_date date_text
  rw [splitOn_three '/' _ _ _
    (fmt_padded_no_sep 2 _ (by decide) hd _ (by decide))
    (fmt_padded_no_sep 2 _ (by decide) hm _ (by decide))
    (fmt_padded_no_sep 2 _ (by decide) hy _ (by decide))]
  simp only [parse_fixed_fmt 2 _ (by decide) hd, parse_fixed_fmt 2 _ (by decide) hm,
    parse_fixed_fmt 2 _ (by decide) hy]

theorem parse_time_text (t : capture_time) (usec : Nat) (hh : t.hour < 100)
    (hm : t.min < 100) (hs : t.sec < 100) (hu : usec < 1000000) :
    parse_time (time_text t usec) = some (t.hour, t.min, t.sec, usec) := by
  unfold parse_time time_text
  have hsu : ':' ∉ fmt_padded 2 t.sec ++ '.' :: fmt_padded 6 usec := by
    intro h
    rcases List.mem_append.mp h with h | h
    · exact fmt_padded_no_sep 2 _ (by decide) hs _ (by decide) h
    · rcases List.mem_cons.mp h with h | h
      · exact absurd h (by decide)
      · exact fmt_padded_no_sep 6 _ (by decide) hu _ (by decide) h
  rw [splitOn_three ':' _ _ _
    (fmt_padded_no_sep 2 _ (by decide) hh _ (by decide))
    (fmt_padded_no_sep 2 _ (by decide) hm _ (by decide)) hsu]
  simp only
  rw [splitOn_two '.' _ _
    (fmt_padded_no_sep 2 _ (by decide) hs _ (by decide))
    (fmt_padded_no_sep 6 _ (by decide) hu _ (by decide))]
  simp only [parse_fixed_fmt 2 _ (by decide) hh, parse_fixed_fmt 2 _ (by decide) hm,
    parse_fixed_fmt 2 _ (by decide) hs, parse_fixed_fmt 6 _ (by decide) hu]

theorem parse_address_text (o1 o2 o3 o4 port : Nat) (h1 : o1 ≤ 255) (h2 : o2 ≤ 255)
    (h3 : o3 ≤ 255) (h4 : o4 ≤ 255) (hp : port ≤ 65535) :
    parse_address (address_text o1 o2 o3 o4 port)
      = some (⟨((o1 * 256 + o2) * 256 + o3) * 256 + o4⟩, port) := by
  unfold parse_address address_text
  have hip : ':' ∉ fmt_number o1
      ++ '.' :: (fmt_number o2 ++ '.' :: (fmt_number o3 ++ '.' :: fmt_number o4)) := by
    simp only [List.mem_append, List.mem_cons, not_or]
    refine ⟨fmt_number_no_sep _ _ (by decide), by decide,
      fmt_number_no_sep _ _ (by decide), by decide,
      fmt_number_no_sep _ _ (by decide), by decide, fmt_number_no_sep _ _ (by decide)⟩
  rw [splitOn_two ':' _ _ hip (fmt_number_no_sep _ _ (by decide))]
  simp only
  rw [splitOn_four '.' _ _ _ _ (fmt_number_no_sep _ _ (by decide))
    (fmt_number_no_sep _ _ (by decide)) (fmt_number_no_sep _ _ (by decide))
    (fmt_number_no_sep _ _ (by decide))]
  simp only [parse_number_fmt]
  rw [if_pos ⟨h1, h2, h3, h4, hp⟩]

theorem date_text_no_blank (t : capture_time) (hd : t.day < 100) (hm : t.month < 100)
    (hy : t.year < 100) : ' ' ∉ date_text t := by
  unfold date_text
  simp only [List.mem_append, List.mem_cons, not_or]
  exact ⟨fmt_padded_no_sep 2 _ (by decide) hd _ (by decide), by decide,
    fmt_padded_no_sep 2 _ (by decide) hm _ (by decide), by decide,
    fmt_padded_no_sep 2 _ (by decide) hy _ (by decide)⟩

theorem time_text_no_blank (t : capture_time) (usec : Nat) (hh : t.hour < 100)
    (hm : t.min < 100) (hs : t.sec < 100) (hu : usec < 1000000) :
    ' ' ∉ time_text t usec := by
  unfold time_text
  simp only [List.mem_append, List.mem_cons, not_or]
  exact ⟨fmt_padded_no_sep 2 _ (by decide) hh _ (by decide), by decide,
    fmt_padded_no_sep 2 _ (by decide) hm _ (by decide), by decide,
    fmt_padded_no_sep 2 _ (by decide) hs _ (by decide), by decide,
    fmt_padded_no_sep 6 _ (by decide) hu _ (by decide)⟩

theorem address_text_no_blank (o1 o2 o3 o4 port : Nat) :
    ' ' ∉ address_text o1 o2 o3 o4 port := by
  unfold address_text
  simp only [List.mem_append, List.mem_cons, not_or]
  exact ⟨⟨fmt_number_no_sep _ _ (by decide), by decide,
    fmt_number_no_sep _ _ (by decide), by decide,
    fmt_number_no_sep _ _ (by decide), by decide, fmt_number_no_sep _ _ (by decide)⟩,
    by decide, fmt_number_no_sep _ _ (by decide)⟩

/-- What `msg_parse_header` makes of a capture header line whose fields are in range. -/
theorem msg_parse_header_line (mktime : capture_time → Nat) (msg : sip_msg)
    (t : capture_time) (usec s1 s2 s3 s4 sport d1 d2 d3 d4 dport : Nat)
    (hr : header_fields_in_range t usec s1 s2 s3 s4 sport d1 d2 d3 d4 dport) :
    msg_parse_header mktime msg
        (capture_header_line t usec s1 s2 s3 s4 sport d1 d2 d3 d4 dport)
      = (0, { msg with
                ts := ⟨mktime t, usec⟩
                src := ⟨((s1 * 256 + s2) * 256 + s3) * 256 + s4⟩, sport := sport
                dst := ⟨((d1 * 256 + d2) * 256 + d3) * 256 + d4⟩, dport := dport }) := by
  obtain ⟨hday, hmon, hyear, hhour, hmin, hsec, husec, hs1, hs2, hs3, hs4, hsp,
    hd1, hd2, hd3, hd4, hdp⟩ := hr
  unfold msg_parse_header capture_header_line
  simp only
  rw [splitOn_six ' ' _ _ _ _ _ _ (by decide)
    (date_text_no_blank t hday hmon hyear)
    (time_text_no_blank t usec hhour hmin hsec husec)
    (address_text_no_blank _ _ _ _ _) (by decide) (address_text_no_blank _ _ _ _ _)]
  simp only [parse_date_text t hday hmon hyear,
    parse_time_text t usec hhour hmin hsec husec,
    parse_address_text _ _ _ _ _ hs1 hs2 hs3 hs4 hsp,
    parse_address_text _ _ _ _ _ hd1 hd2 hd3 hd4 hdp]
  simp

theorem fmt_address_packed (o1 o2 o3 o4 port : Nat) (h1 : o1 ≤ 255) (h2 : o2 ≤ 255)
    (h3 : o3 ≤ 255) (h4 : o4 ≤ 255) :
    fmt_address ⟨((o1 * 256 + o2) * 256 + o3) * 256 + o4⟩ port
      = address_text o1 o2 o3 o4 port := by
  have e1 : (((o1 * 256 + o2) * 256 + o3) * 256 + o4) / 16777216 % 256 = o1 := by omega
  have e2 : (((o1 * 256 + o2) * 256 + o3) * 256 + o4) / 65536 % 256 = o2 := by omega
  have e3 : (((o1 * 256 + o2) * 256 + o3) * 256 + o4) / 256 % 256 = o3 := by omega
  have e4 : (((o1 * 256 + o2) * 256 + o3) * 256 + o4) % 256 = o4 := by omega
  simp only [fmt_address, address_text, e1, e2, e3, e4, List.append_assoc, List.cons_append]

/-- C9: header round trip. For every capture header line
`U DD/MM/YY hh:mm:ss.uuuuuu a.b.c.d:p -> a.b.c.d:p` whose fields are in range and whose
date and time the calendar conversion of the C library maps to seconds and back
unchanged, `msg_parse_header` returns 0 and `msg_get_header` on the resulting message
gives the same line again, byte for byte. -/
theorem header_round_trip (mktime : capture_time → Nat) (localtime : Nat → capture_time)
    (msg : sip_msg) (t : capture_time)
    (usec s1 s2 s3 s4 sport d1 d2 d3 d4 dport : Nat)
    (hr : header_fields_in_range t usec s1 s2 s3 s4 sport d1 d2 d3 d4 dport)
    (hcal : localtime (mktime t) = t) :
    (msg_parse_header mktime msg
        (capture_header_line t usec s1 s2 s3 s4 sport d1 d2 d3 d4 dport)).1 = 0
      ∧ msg_get_header localtime
          (msg_parse_header mktime msg
            (capture_header_line t usec s1 s2 s3 s4 sport d1 d2 d3 d4 dport)).2
        = capture_header_line t usec s1 s2 s3 s4 sport d1 d2 d3 d4 dport := by
  rw [msg_parse_header_line mktime msg t usec s1 s2 s3 s4 sport d1 d2 d3 d4 dport hr]
  obtain ⟨_, _, _, _, _, _, _, hs1, hs2, hs3, hs4, _, hd1, hd2, hd3, hd4, _⟩ := hr
  refine ⟨rfl, ?_⟩
  simp only [msg_get_header, hcal, fmt_address_packed _ _ _ _ _ hs1 hs2 hs3 hs4,
    fmt_address_packed _ _ _ _ _ hd1 hd2 hd3 hd4, capture_header_line, date_text, time_text,
    List.append_assoc, List.cons_append, List.nil_append]

/-- C9 for the header line of the scenario of section 8, with the UTC calendar. -/
theorem header_round_trip_witness :
    header_fields_in_range ⟨10, 5, 14, 10, 0, 1⟩ 0 10 0 0 1 5060 10 0 0 2 5060
      ∧ utc_localtime (utc_mktime ⟨10, 5, 14, 10, 0, 1⟩) = ⟨10, 5, 14, 10, 0, 1⟩
      ∧ capture_header_line ⟨10, 5, 14, 10, 0, 1⟩ 0 10 0 0 1 5060 10 0 0 2 5060
          = "U 10/05/14 10:00:01.000000 10.0.0.1:5060 -> 10.0.0.2:5060"
      ∧ (msg_parse_header utc_mktime (sip_state_init.msg 0)
          (capture_header_line ⟨10, 5, 14, 10, 0, 1⟩ 0 10 0 0 1 5060 10 0 0 2 5060)).1 = 0
      ∧ msg_get_header utc_localtime
          (msg_parse_header utc_mktime (sip_state_init.msg 0)
            (capture_header_line ⟨10, 5, 14, 10, 0, 1⟩ 0 10 0 0 1 5060 10 0 0 2 5060)).2
        = capture_header_line ⟨10, 5, 14, 10, 0, 1⟩ 0 10 0 0 1 5060 10 0 0 2 5060 :=
  ⟨by decide, by decide, by decide,
    header_round_trip utc_mktime utc_localtime (sip_state_init.msg 0) ⟨10, 5, 14, 10, 0, 1⟩
      0 10 0 0 1 5060 10 0 0 2 5060 (by decide) (by decide)⟩

/-! ## Traversal of the call index -/

theorem call_get_next_at (attr_name : sip_attr_id → String) (options : List option_opt_t)
    (st : sip_state) (pre post : List Nat) (c : Nat)
    (hl : st.calls = pre ++ c :: post) (hnd : st.calls.Nodup) :
    call_get_next attr_name options st (some c)
      = post.find? fun d => !call_skipped attr_name options st d := by
  unfold call_get_next
  simp only
  rw [hl, dropWhile_ne_append pre post c
    (not_mem_of_nodup_append pre post c (by rw [← hl]; exact hnd))]
  rfl

theorem call_get_prev_at (attr_name : sip_attr_id → String) (options : List option_opt_t)
    (st : sip_state) (pre post : List Nat) (c : Nat)
    (hl : st.calls = pre ++ c :: post) (hnd : st.calls.Nodup) :
    call_get_prev attr_name options st c
      = pre.reverse.find? fun d => !call_skipped attr_name options st d := by
  unfold call_get_prev
  simp only
  rw [hl, takeWhile_ne_append pre post c
    (not_mem_of_nodup_append pre post c (by rw [← hl]; exact hnd)), if_pos (by simp)]

theorem find?_decompose (p : Nat → Bool) (l : List Nat) (d : Nat)
    (h : l.find? p = some d) :
    p d = true ∧ ∃ mid rest, l = mid ++ d :: rest ∧ ∀ e ∈ mid, p e = false := by
  induction l with
  | nil => simp at h
  | cons x xs ih =>
    rw [List.find?_cons] at h
    cases hx : p x with
    | true =>
      rw [hx] at h
      simp only [Option.some.injEq] at h
      subst h
      exact ⟨hx, [], xs, rfl, by simp⟩
    | false =>
      rw [hx] at h
      obtain ⟨hd, mid, rest, hxs, hmid⟩ := ih h
      refine ⟨hd, x :: mid, rest, by rw [hxs]; rfl, ?_⟩
      intro e he
      rcases List.mem_cons.mp he with rfl | he'
      · exact hx
      · exact hmid e he'

theorem filter_eq_nil_of_all_false (p : Nat → Bool) (l : List Nat)
    (h : ∀ e ∈ l, p e = false) : l.filter p = [] := by
  rw [List.filter_eq_nil_iff]
  intro e he
  simp [h e he]

theorem next_call_walk_some (attr_name : sip_attr_id → String)
    (options : List option_opt_t) (st : sip_state) (hnd : st.calls.Nodup) (n : Nat) :
    ∀ (pre post : List Nat) (c : Nat), st.calls = pre ++ c :: post → post.length ≤ n →
      next_call_walk attr_name options st n (some c)
        = post.filter fun d => !call_skipped attr_name options st d := by
  induction n with
  | zero =>
    intro pre post c _ hn
    have : post = [] := List.length_eq_zero.mp (Nat.le_zero.mp hn)
    subst this
    rfl
  | succ k ih =>
    intro pre post c hl hn
    simp only [next_call_walk, call_get_next_at attr_name options st pre post c hl hnd]
    cases hf : post.find? (fun d => !call_skipped attr_name options st d) with
    | none =>
      rw [List.find?_eq_none] at hf
      rw [filter_eq_nil_of_all_false _ _ (fun e he => by simpa using hf e he)]
    | some d =>
      obtain ⟨hd, mid, rest, hpost, hmid⟩ := find?_decompose _ _ _ hf
      have hl' : st.calls = (pre ++ c :: mid) ++ d :: rest := by
        rw [hl, hpost]; simp
      have hlen : rest.length ≤ k := by
        rw [hpost] at hn
        simp only [List.length_append, List.length_cons] at hn
        omega
      simp only
      rw [ih (pre ++ c :: mid) rest d hl' hlen, hpost, List.filter_append,
        filter_eq_nil_of_all_false _ mid hmid, List.nil_append, List.filter_cons, hd]
      rfl

theorem next_call_walk_none (attr_name : sip_attr_id → String)
    (options : List option_opt_t) (st : sip_state) (hnd : st.calls.Nodup) (n : Nat)
    (hn : st.calls.length ≤ n) :
    next_call_walk attr_name options st n none
      = st.calls.filter fun d => !call_skipped attr_name options st d := by
  cases n with
  | zero =>
    have : st.calls = [] := List.length_eq_zero.mp (Nat.le_zero.mp hn)
    rw [this]
    rfl
  | succ k =>
    simp only [next_call_walk]
    have hnext : call_get_next attr_name options st none
        = st.calls.find? fun d => !call_skipped attr_name options st d := rfl
    rw [hnext]
    cases hf : st.calls.find? (fun d => !call_skipped attr_name options st d) with
    | none =>
      rw [List.find?_eq_none] at hf
      rw [filter_eq_nil_of_all_false _ _ (fun e he => by simpa using hf e he)]
    | some d =>
      obtain ⟨hd, mid, rest, hcalls, hmid⟩ := find?_decompose _ _ _ hf
      have hlen : rest.length ≤ k := by
        rw [hcalls] at hn
        simp only [List.length_append, List.length_cons] at hn
        omega
      simp only
      rw [next_call_walk_some attr_name options st hnd k mid rest d hcalls hlen]
      conv_rhs => rw [hcalls]
      rw [List.filter_append, filter_eq_nil_of_all_false _ mid hmid, List.nil_append,
        List.filter_cons, hd]
      rfl

theorem prev_call_walk_eq (attr_name : sip_attr_id → String)
    (options : List option_opt_t) (st : sip_state) (hnd : st.calls.Nodup) (n : Nat) :
    ∀ (pre post : List Nat) (c : Nat), st.calls = pre ++ c :: post → pre.length ≤ n →
      prev_call_walk attr_name options st n c
        = (pre.filter fun d => !call_skipped attr_name options st d).reverse := by
  induction n with
  | zero =>
    intro pre post c _ hn
    have : pre = [] := List.length_eq_zero.mp (Nat.le_zero.mp hn)
    subst this
    rfl
  | succ k ih =>
    intro pre post c hl hn
    simp only [prev_call_walk, call_get_prev_at attr_name options st pre post c hl hnd]
    cases hf : pre.reverse.find? (fun d => !call_skipped attr_name options st d) with
    | none =>
      rw [List.find?_eq_none] at hf
      rw [filter_eq_nil_of_all_false _ _
        (fun e he => by simpa using hf e (List.mem_reverse.mpr he))]
      rfl
    | some d =>
      obtain ⟨hd, mid, rest, hrev, hmid⟩ := find?_decompose _ _ _ hf
      have hpre : pre = rest.reverse ++ d :: mid.reverse := by
        have := congrArg List.reverse hrev
        simpa using this
      have hl' : st.calls = rest.reverse ++ d :: (mid.reverse ++ c :: post) := by
        rw [hl, hpre]; simp
      have hlen : rest.reverse.length ≤ k := by
        rw [hpre] at hn
        simp only [List.length_append, List.length_cons, List.length_reverse] at hn ⊢
        omega
      simp only
      rw [ih rest.reverse (mid.reverse ++ c :: post) d hl' hlen, hpre, List.filter_append,
        List.filter_cons, hd,
        filter_eq_nil_of_all_false _ mid.reverse
          (fun e he => hmid e (List.mem_reverse.mp he))]
      simp

theorem find?_eq_some_first (p : Nat → Bool) (l : List Nat) (d : Nat) :
    l.find? p = some d
      ↔ p d = true ∧ ∃ mid rest, l = mid ++ d :: rest ∧ ∀ e ∈ mid, p e = false := by
  constructor
  · exact find?_decompose p l d
  · rintro ⟨hd, mid, rest, rfl, hmid⟩
    exact find?_first p mid rest d hmid hd

theorem is_ignored_value_zero_or_one (s : List option_opt_t) (field value : String) :
    is_ignored_value s field value = 0 ∨ is_ignored_value s field value = 1 := by
  induction s with
  | nil => exact Or.inl rfl
  | cons o rest ih =>
    unfold is_ignored_value
    split
    · exact Or.inr rfl
    · exact ih

theorem call_skipped_iff (attr_name : sip_attr_id → String) (options : List option_opt_t)
    (st : sip_state) (c : Nat) :
    call_skipped attr_name options st c = true
      ↔ (call_method_disabled options (st.call c) = true
          ∨ ∃ a ∈ (st.call c).attrs, is_ignored_value options (attr_name a.id) a.value = 1) := by
  unfold call_skipped call_attr_ignored
  rw [Bool.or_eq_true, List.any_eq_true]
  apply or_congr Iff.rfl
  constructor
  · rintro ⟨a, ha, hv⟩
    refine ⟨a, ha, ?_⟩
    rcases is_ignored_value_zero_or_one options (attr_name a.id) a.value with h0 | h1
    · simp [h0] at hv
    · exact h1
  · rintro ⟨a, ha, hv⟩
    exact ⟨a, ha, by simp [hv]⟩

theorem call_walks_agree (attr_name : sip_attr_id → String) (options : List option_opt_t)
    (st : sip_state) (hnd : st.calls.Nodup) (last : Nat)
    (hlast : (st.calls.filter fun d => !call_skipped attr_name options st d).getLast?
      = some last) :
    (last :: prev_call_walk attr_name options st st.calls.length last).reverse
      = st.calls.filter fun d => !call_skipped attr_name options st d := by
  have hmem := List.mem_of_getLast?_eq_some hlast
  obtain ⟨hin, hns⟩ := List.mem_filter.mp hmem
  obtain ⟨pre, post, hl⟩ := List.append_of_mem hin
  have hpost : post.filter (fun d => !call_skipped attr_name options st d) = [] := by
    by_contra hne
    have hfl : (st.calls.filter fun d => !call_skipped attr_name options st d)
        = pre.filter (fun d => !call_skipped attr_name options st d)
          ++ last :: post.filter (fun d => !call_skipped attr_name options st d) := by
      rw [hl, List.filter_append, List.filter_cons, hns]
      rfl
    rw [hfl, ← List.singleton_append, ← List.append_assoc,
      List.getLast?_append_of_ne_nil _ hne] at hlast
    have hmem' := List.mem_of_getLast?_eq_some hlast
    have hinpost : last ∈ post := (List.mem_filter.mp hmem').1
    rw [hl] at hnd
    have hnd' := (List.nodup_append.mp hnd).2.1
    exact (List.nodup_cons.mp hnd').1 hinpost
  have hlen : pre.length ≤ st.calls.length := by
    rw [hl]; simp
  rw [prev_call_walk_eq attr_name options st hnd _ pre post last hl hlen]
  conv_rhs => rw [hl]
  rw [List.filter_append, List.filter_cons, hns, hpost]
  simp

/-- C10: in a call index whose calls are distinct, `call_get_next(cur)` returns the first
call after `cur` in insertion order (after nothing when `cur` is NULL) that is not
skipped, and NULL when every such call is skipped; `call_get_prev(cur)` returns the last
call before `cur` that is not skipped, and NULL when there is none; a call is skipped
exactly when the filter configuration marks its method disabled or `is_ignored_value`
returns 1 for one of its attributes; between calls that are not skipped `call_get_prev`
undoes `call_get_next`; and walking forward from NULL visits exactly the calls that are
not skipped, in insertion order, which walking backward from the last of them visits in
reverse order. -/
theorem call_get_next_prev_skip (attr_name : sip_attr_id → String)
    (options : List option_opt_t) (st : sip_state) (hnd : st.calls.Nodup) :
    (∀ c, call_skipped attr_name options st c = true
        ↔ (call_method_disabled options (st.call c) = true
            ∨ ∃ a ∈ (st.call c).attrs,
                is_ignored_value options (attr_name a.id) a.value = 1))
      ∧ (∀ d, call_get_next attr_name options st none = some d
          ↔ call_skipped attr_name options st d = false
            ∧ ∃ mid rest, st.calls = mid ++ d :: rest
              ∧ ∀ e ∈ mid, call_skipped attr_name options st e = true)
      ∧ (call_get_next attr_name options st none = none
          ↔ ∀ e ∈ st.calls, call_skipped attr_name options st e = true)
      ∧ (∀ pre c post, st.calls = pre ++ c :: post →
          (∀ d, call_get_next attr_name options st (some c) = some d
            ↔ call_skipped attr_name options st d = false
              ∧ ∃ mid rest, post = mid ++ d :: rest
                ∧ ∀ e ∈ mid, call_skipped attr_name options st e = true)
          ∧ (call_get_next attr_name options st (some c) = none
            ↔ ∀ e ∈ post, call_skipped attr_name options st e = true)
          ∧ (∀ d, call_get_prev attr_name options st c = some d
            ↔ call_skipped attr_name options st d = false
              ∧ ∃ rest mid, pre = rest ++ d :: mid
                ∧ ∀ e ∈ mid, call_skipped attr_name options st e = true)
          ∧ (call_get_prev attr_name options st c = none
            ↔ ∀ e ∈ pre, call_skipped attr_name options st e = true))
      ∧ (∀ a ∈ st.calls, ∀ b ∈ st.calls,
          call_skipped attr_name options st a = false →
          call_skipped attr_name options st b = false →
          (call_get_next attr_name options st (some a) = some b
            ↔ call_get_prev attr_name options st b = some a))
      ∧ next_call_walk attr_name options st st.calls.length none
          = (st.calls.filter fun d => !call_skipped attr_name options st d)
      ∧ (∀ last,
          (st.calls.filter fun d => !call_skipped attr_name options st d).getLast?
            = some last →
          (last :: prev_call_walk attr_name options st st.calls.length last).reverse
            = st.calls.filter fun d => !call_skipped attr_name options st d) := by
  have hnext : ∀ pre c post, st.calls = pre ++ c :: post → ∀ d,
      (call_get_next attr_name options st (some c) = some d
        ↔ call_skipped attr_name options st d = false
          ∧ ∃ mid rest, post = mid ++ d :: rest
            ∧ ∀ e ∈ mid, call_skipped attr_name options st e = true) := by
    intro pre c post hl d
    rw [call_get_next_at attr_name options st pre post c hl hnd, find?_eq_some_first]
    simp
  have hprev : ∀ pre c post, st.calls = pre ++ c :: post → ∀ d,
      (call_get_prev attr_name options st c = some d
        ↔ call_skipped attr_name options st d = false
          ∧ ∃ rest mid, pre = rest ++ d :: mid
            ∧ ∀ e ∈ mid, call_skipped attr_name options st e = true) := by
    intro pre c post hl d
    rw [call_get_prev_at attr_name options st pre post c hl hnd, find?_eq_some_first]
    constructor
    · rintro ⟨hd, mid, rest, hrev, hmid⟩
      refine ⟨by simpa using hd, rest.reverse, mid.reverse, ?_, ?_⟩
      · have := congrArg List.reverse hrev
        simpa using this
      · intro e he
        simpa using hmid e (List.mem_reverse.mp he)
    · rintro ⟨hd, rest, mid, hpre, hmid⟩
      refine ⟨by simpa using hd, mid.reverse, rest.reverse, ?_, ?_⟩
      · rw [hpre]; simp
      · intro e he
        simpa using hmid e (List.mem_reverse.mp he)
  refine ⟨call_skipped_iff attr_name options st, ?_, ?_, ?_, ?_,
    next_call_walk_none attr_name options st hnd _ (le_refl _),
    call_walks_agree attr_name options st hnd⟩
  · intro d
    show st.calls.find? (fun c => !call_skipped attr_name options st c) = some d ↔ _
    rw [find?_eq_some_first]
    simp
  · show st.calls.find? (fun c => !call_skipped attr_name options st c) = none ↔ _
    rw [List.find?_eq_none]
    simp
  · intro pre c post hl
    refine ⟨hnext pre c post hl, ?_, hprev pre c post hl, ?_⟩
    · rw [call_get_next_at attr_name options st pre post c hl hnd, List.find?_eq_none]
      simp
    · rw [call_get_prev_at attr_name options st pre post c hl hnd, List.find?_eq_none]
      simp
  · intro a ha b hb hsa hsb
    constructor
    · intro h
      obtain ⟨pre, post, hl⟩ := List.append_of_mem ha
      obtain ⟨_, mid, rest, hpost, hmid⟩ := (hnext pre a post hl b).mp h
      have hl' : st.calls = (pre ++ a :: mid) ++ b :: rest := by
        rw [hl, hpost]; simp
      exact (hprev (pre ++ a :: mid) b rest hl' a).mpr ⟨hsa, pre, mid, rfl, hmid⟩
    · intro h
      obtain ⟨pre, post, hl⟩ := List.append_of_mem hb
      obtain ⟨_, rest, mid, hpre, hmid⟩ := (hprev pre b post hl a).mp h
      have hl' : st.calls = rest ++ a :: (mid ++ b :: post) := by
        rw [hl, hpre]; simp
      exact (hnext rest a (mid ++ b :: post) hl' b).mpr ⟨hsb, mid, post, rfl, hmid⟩

/-- C10 in `filtered_index_state`: the OPTIONS call and the call from alice are skipped. -/
theorem call_get_next_prev_skip_witness :
    filtered_index_state.calls.Nodup
      ∧ next_call_walk sample_attr_name sample_options filtered_index_state
          filtered_index_state.calls.length none
        = (filtered_index_state.calls.filter fun d =>
            !call_skipped sample_attr_name sample_options filtered_index_state d)
      ∧ (filtered_index_state.calls.filter fun d =>
            !call_skipped sample_attr_name sample_options filtered_index_state d) = [0, 3] :=
  ⟨by decide,
    (call_get_next_prev_skip sample_attr_name sample_options filtered_index_state
      (by decide)).2.2.2.2.2.1,
    by decide⟩

/-! ## Entry count of the store -/

theorem replace_values_length (s : List option_opt_t) (opt value : String) :
    optscnt (replace_values s opt value) = optscnt s := by
  simp [replace_values, optscnt]

/-- A `set_option_value` with both arguments present writes inside the array when the
store has room or the option already has a value; the entry count then grows by one for
a new option and stays for one that has a value. -/
theorem set_option_value_in_bounds (s : List option_opt_t) (opt value : String)
    (hroom : optscnt s < OPTIONS_SIZE ∨ get_option_value s opt ≠ none) :
    ∃ s', set_option_value s (some opt) (some value) = some s'
      ∧ (get_option_value s opt ≠ none → optscnt s' = optscnt s)
      ∧ (get_option_value s opt = none → optscnt s' = optscnt s + 1) := by
  rw [set_option_value_some]
  cases hg : get_option_value s opt with
  | none =>
    have hlt : optscnt s < OPTIONS_SIZE := by
      rcases hroom with h | h
      · exact h
      · exact absurd hg h
    simp only [hlt, if_true]
    exact ⟨_, rfl, fun h => absurd rfl h, fun _ => by simp [optscnt]⟩
  | some w =>
    exact ⟨_, rfl, fun _ => replace_values_length s opt value, fun h => by cases h⟩

theorem set_option_value_null (s : List option_opt_t) (x : Option String) :
    set_option_value s none x = some s ∧ set_option_value s x none = some s := by
  constructor
  · rfl
  · cases x <;> rfl

theorem is_option_enabled_of_value (s : List option_opt_t) (key v : String)
    (h : get_option_value s key = some v) :
    is_option_enabled s key
      = if strcasecmp v "on" = 0 then 1 else if strcasecmp v "1" = 0 then 1 else 0 := by
  unfold is_option_enabled
  rw [h]

theorem is_option_enabled_zero_or_one (s : List option_opt_t) (key : String) :
    is_option_enabled s key = 0 ∨ is_option_enabled s key = 1 := by
  unfold is_option_enabled
  split
  · split
    · exact Or.inr rfl
    · split
      · exact Or.inr rfl
      · exact Or.inl rfl
  · exact Or.inl rfl

theorem is_ignored_value_of_mem (s : List option_opt_t) (field value : String)
    (e : option_opt_t) (he : e ∈ s) (hn : eq_nocase e.opt field)
    (hv : eq_nocase e.value value) : is_ignored_value s field value = 1 := by
  induction s with
  | nil => simp at he
  | cons o rest ih =>
    unfold is_ignored_value
    simp only [strcasecmp_eq_zero]
    by_cases h : eq_nocase o.opt field ∧ eq_nocase o.value value
    · rw [if_pos h]
    · rw [if_neg h]
      rcases List.mem_cons.mp he with rfl | he'
      · exact absurd ⟨hn, hv⟩ h
      · exact ih he'

theorem mem_replace_values_of_other (s : List option_opt_t) (opt value : String)
    (e : option_opt_t) (he : e ∈ s) (hdiff : ¬ eq_nocase opt e.opt) :
    e ∈ replace_values s opt value := by
  unfold replace_values
  rw [List.mem_map]
  refine ⟨e, he, ?_⟩
  simp only [strcasecmp_eq_zero]
  rw [if_neg hdiff]

/-! ## The claims about defaults, toggling and frames -/

/-- C12 fails on the code: with no configuration file and HOME unset `init_options`
returns 0 and leaves `cl.column0` with the value "sipfrom"; no entry of the store has the
value "time", the first default written to `cl.column0`. -/
theorem init_options_time_column_lost :
    (init_options (fun _ => none) none []).map
        (fun p => (p.2, get_option_value p.1 "cl.column0",
          p.1.filter fun e => e.value = "time"))
      = some (0, some "sipfrom", []) := by
  decide

/-- C14: for every option store and option name for which the write of `toggle_option`
stays inside the array (the store has room or the option has a value), `toggle_option`
returns a store in which the option is enabled exactly when it was not enabled before,
so that an unset option or one with a value other than "on" and "1" becomes enabled, and
in which the value of the option is exactly "on" or "off". -/
theorem toggle_option_negates (s : List option_opt_t) (name : String)
    (hroom : optscnt s < OPTIONS_SIZE ∨ get_option_value s name ≠ none) :
    ∃ s', toggle_option s name = some s'
      ∧ (is_option_enabled s' name = 1 ↔ is_option_enabled s name = 0)
      ∧ (is_option_enabled s' name = 0 ↔ is_option_enabled s name = 1)
      ∧ (get_option_value s name = none → is_option_enabled s' name = 1)
      ∧ (get_option_value s' name = some "on" ∨ get_option_value s' name = some "off") := by
  unfold toggle_option
  obtain ⟨s', hs', _, _⟩ := set_option_value_in_bounds s name
    (if is_option_enabled s name ≠ 0 then "off" else "on") hroom
  have hget := get_after_set s s' name _ name hs'
  rw [if_pos (eq_nocase_refl name)] at hget
  refine ⟨s', hs', ?_⟩
  rcases is_option_enabled_zero_or_one s name with h0 | h1
  · have hon : get_option_value s' name = some "on" := by
      rw [hget, h0]; rfl
    have hen : is_option_enabled s' name = 1 := by
      rw [is_option_enabled_of_value s' name "on" hon]; decide
    refine ⟨?_, ?_, fun _ => hen, Or.inl hon⟩
    · simp [hen, h0]
    · simp [hen, h0]
  · have hoff : get_option_value s' name = some "off" := by
      rw [hget, h1]; rfl
    have hen : is_option_enabled s' name = 0 := by
      rw [is_option_enabled_of_value s' name "off" hoff]; decide
    refine ⟨?_, ?_, ?_, Or.inr hoff⟩
    · simp [hen, h1]
    · simp [hen, h1]
    · intro hnone
      exfalso
      unfold is_option_enabled at h1
      rw [hnone] at h1
      cases h1

/-- C14 for the unset option "color" in the empty store and for it once toggled. -/
theorem toggle_option_negates_witness :
    (optscnt [] < OPTIONS_SIZE ∨ get_option_value [] "color" ≠ none)
      ∧ ∃ s', toggle_option [] "color" = some s'
        ∧ (is_option_enabled s' "color" = 1 ↔ is_option_enabled [] "color" = 0)
        ∧ (is_option_enabled s' "color" = 0 ↔ is_option_enabled [] "color" = 1)
        ∧ (get_option_value [] "color" = none → is_option_enabled s' "color" = 1)
        ∧ (get_option_value s' "color" = some "on"
            ∨ get_option_value s' "color" = some "off") :=
  ⟨by decide, toggle_option_negates [] "color" (by decide)⟩

/-- C15: for every option store, `set_option_value` with a NULL name or a NULL value
returns the store as it is; and a `set_option_value(opt, value)` whose write stays inside
the array (the store has room or `opt` has a value) returns a store in which
`get_option_value(k)` is what it was for every key `k` that differs from `opt` ignoring
ASCII case. -/
theorem set_option_value_frame (s : List option_opt_t) (opt value : String)
    (hroom : optscnt s < OPTIONS_SIZE ∨ get_option_value s opt ≠ none) :
    (∃ s', set_option_value s (some opt) (some value) = some s'
        ∧ ∀ k, ¬ eq_nocase k opt → get_option_value s' k = get_option_value s k)
      ∧ (∀ x, set_option_value s none x = some s ∧ set_option_value s x none = some s) := by
  obtain ⟨s', hs', _, _⟩ := set_option_value_in_bounds s opt value hroom
  refine ⟨⟨s', hs', ?_⟩, set_option_value_null s⟩
  intro k hk
  rw [get_after_set s s' opt value k hs', if_neg hk]

/-- C15 for `set_option_value("color", "off")` on a store that holds "syntax". -/
theorem set_option_value_frame_witness :
    (optscnt [{ type := option_type.SETTING, opt := "syntax", value := "on" }]
          < OPTIONS_SIZE
        ∨ get_option_value [{ type := option_type.SETTING, opt := "syntax", value := "on" }]
            "color" ≠ none)
      ∧ ∃ s', set_option_value
            [{ type := option_type.SETTING, opt := "syntax", value := "on" }]
            (some "color") (some "off") = some s'
          ∧ ∀ k, ¬ eq_nocase k "color" →
              get_option_value s' k
                = get_option_value
                    [{ type := option_type.SETTING, opt := "syntax", value := "on" }] k :=
  ⟨by decide,
    (set_option_value_frame [{ type := option_type.SETTING, opt := "syntax", value := "on" }]
      "color" "off" (by decide)).1⟩

/-- C17, as stated, fails: the store reached by `set_ignore_value("sipfrom", "alice")`
holds that ignore rule and `is_ignored_value("sipfrom", "alice")` returns 1; after
`set_option_value("sipfrom", "bob")` the entry of the rule, still of type IGNORE, has the
value "bob" and `is_ignored_value("sipfrom", "alice")` returns 0. -/
theorem set_option_value_rewrites_ignore_rule :
    set_ignore_value [] "sipfrom" "alice" = some ignore_alice_store
      ∧ is_ignored_value ignore_alice_store "sipfrom" "alice" = 1
      ∧ set_option_value ignore_alice_store (some "sipfrom") (some "bob")
          = some [{ type := option_type.IGNORE, opt := "sipfrom", value := "bob" }]
      ∧ is_ignored_value [{ type := option_type.IGNORE, opt := "sipfrom", value := "bob" }]
          "sipfrom" "alice" = 0 := by
  decide

/-- C17 (amended): for every store that holds an ignore-rule entry with name `f` and
value `v`, and every `opt` and `w` with `opt` different from `f` ignoring ASCII case, a
`set_option_value(opt, w)` whose write stays inside the array returns a store that still
holds that entry with name `f` and value `v`, so `is_ignored_value(f, v)` still returns 1;
the same holds, with the store unchanged, when `opt` or `w` is NULL. -/
theorem set_option_value_keeps_other_ignore_rules (s : List option_opt_t)
    (f v opt w : String)
    (hrule : ({ type := option_type.IGNORE, opt := f, value := v } : option_opt_t) ∈ s)
    (hdiff : ¬ eq_nocase opt f)
    (hroom : optscnt s < OPTIONS_SIZE ∨ get_option_value s opt ≠ none) :
    (∃ s', set_option_value s (some opt) (some w) = some s'
        ∧ ({ type := option_type.IGNORE, opt := f, value := v } : option_opt_t) ∈ s'
        ∧ is_ignored_value s' f v = 1)
      ∧ (∀ x, set_option_value s none x = some s ∧ set_option_value s x none = some s)
      ∧ is_ignored_value s f v = 1 := by
  have hign : ∀ t : List option_opt_t,
      ({ type := option_type.IGNORE, opt := f, value := v } : option_opt_t) ∈ t →
      is_ignored_value t f v = 1 := fun t ht =>
    is_ignored_value_of_mem t f v _ ht (eq_nocase_refl f) (eq_nocase_refl v)
  refine ⟨?_, set_option_value_null s, hign s hrule⟩
  have hmem : ∃ s', set_option_value s (some opt) (some w) = some s'
      ∧ ({ type := option_type.IGNORE, opt := f, value := v } : option_opt_t) ∈ s' := by
    rw [set_option_value_some]
    cases hg : get_option_value s opt with
    | none =>
      have hlt : optscnt s < OPTIONS_SIZE := by
        rcases hroom with h | h
        · exact h
        · exact absurd hg h
      simp only [hlt, if_true]
      exact ⟨_, rfl, List.mem_append_left _ hrule⟩
    | some w' =>
      exact ⟨_, rfl, mem_replace_values_of_other s opt w _ hrule hdiff⟩
  obtain ⟨s', hs', hin⟩ := hmem
  exact ⟨s', hs', hin, hign s' hin⟩

/-- C17 (amended) for the rule ("sipfrom", "alice") and `set_option_value("color", "on")`. -/
theorem set_option_value_keeps_other_ignore_rules_witness :
    ({ type := option_type.IGNORE, opt := "sipfrom", value := "alice" } : option_opt_t)
        ∈ ignore_alice_store
      ∧ ¬ eq_nocase "color" "sipfrom"
      ∧ ∃ s', set_option_value ignore_alice_store (some "color") (some "on") = some s'
          ∧ ({ type := option_type.IGNORE, opt := "sipfrom", value := "alice" } :
              option_opt_t) ∈ s'
          ∧ is_ignored_value s' "sipfrom" "alice" = 1 :=
  ⟨by decide, by decide,
    (set_option_value_keeps_other_ignore_rules ignore_alice_store "sipfrom" "alice" "color"
      "on" (by decide) (by decide) (by decide)).1⟩

/-! ## Names of the store -/

/-- One `set_option_value` that returns keeps the names of the store unique and adds at
most the name it writes. -/
theorem set_option_value_names (s s' : List option_opt_t) (n v : String)
    (hset : set_option_value s (some n) (some v) = some s')
    (hnodup : (s.map fun e => e.opt.data.map tolower).Nodup) :
    (s'.map fun e => e.opt.data.map tolower).Nodup
      ∧ (s'.map fun e => e.opt.data.map tolower).toFinset
          = insert (n.data.map tolower) (s.map fun e => e.opt.data.map tolower).toFinset := by
  rw [set_option_value_some] at hset
  cases hg : get_option_value s n with
  | none =>
    rw [hg] at hset
    simp only at hset
    have hnot := (get_none_iff_not_mem s n).mp hg
    split at hset
    · cases hset
      constructor
      · rw [List.map_append, List.nodup_append]
        refine ⟨hnodup, by simp, ?_⟩
        intro x hx hx'
        simp only [List.map_cons, List.map_nil, List.mem_singleton] at hx'
        subst hx'
        exact hnot hx
      · ext x
        simp only [List.map_append, List.map_cons, List.map_nil, List.mem_toFinset,
          List.mem_append, List.mem_singleton, Finset.mem_insert]
        tauto
    · cases hset
  | some w =>
    rw [hg] at hset
    simp only at hset
    cases hset
    rw [replace_values_names]
    refine ⟨hnodup, ?_⟩
    have hmem : n.data.map tolower ∈ s.map (fun e => e.opt.data.map tolower) := by
      by_contra hc
      have := (get_none_iff_not_mem s n).mpr hc
      rw [hg] at this
      cases this
    ext x
    simp only [List.mem_toFinset, Finset.mem_insert]
    constructor
    · exact Or.inr
    · rintro (h | h)
      · subst h; exact hmem
      · exact h

theorem run_sets_reached (calls : List set_call) :
    ∀ s, run_sets calls [] = some s →
      (s.map fun e => e.opt.data.map tolower).Nodup
        ∧ (s.map fun e => e.opt.data.map tolower).toFinset
            = (calls.filterMap written_name).toFinset := by
  induction calls using List.reverseRecOn with
  | nil =>
    intro s hs
    have : s = [] := by
      simp [run_sets] at hs
      exact hs
    subst this
    simp
  | append_singleton calls c ih =>
    intro s hs
    rw [run_sets_snoc] at hs
    cases hrun : run_sets calls [] with
    | none => rw [hrun] at hs; cases hs
    | some s0 =>
      rw [hrun, Option.some_bind] at hs
      obtain ⟨hnodup, hnames⟩ := ih s0 hrun
      rcases c with ⟨_ | n, _ | v⟩
      · cases hs
        exact ⟨hnodup, by simpa [written_name] using hnames⟩
      · cases hs
        exact ⟨hnodup, by simpa [written_name] using hnames⟩
      · have hs0 : s = s0 := by
          have h2 := (set_option_value_null s0 (some n)).2
          simp only at hs
          rw [h2] at hs
          cases hs
          rfl
        subst hs0
        exact ⟨hnodup, by simpa [written_name] using hnames⟩
      · obtain ⟨hnodup', hnames'⟩ := set_option_value_names s0 s n v hs hnodup
        refine ⟨hnodup', ?_⟩
        have hwn : (calls ++ [(some n, some v)]).filterMap written_name
            = calls.filterMap written_name ++ [n.data.map tolower] := by
          simp [written_name]
        rw [hnames', hnames, hwn]
        ext x
        simp only [List.mem_toFinset, Finset.mem_insert, List.mem_append,
          List.mem_singleton]
        tauto

theorem optscnt_eq_card (s : List option_opt_t)
    (hnodup : (s.map fun e => e.opt.data.map tolower).Nodup) :
    optscnt s = (s.map fun e => e.opt.data.map tolower).toFinset.card := by
  rw [List.toFinset_card_of_nodup hnodup]
  simp [optscnt]

/-- C16: option names stay unique. In every store reached from the empty store by
`set_option_value` calls no two entries have names that are equal ignoring ASCII case
and the entry count `optscnt` is the number of distinct names written so far; a further
`set_option_value` of an option that has a value returns a store with the same count,
and one of a new option, when the store has room, a store with the count raised by
one. -/
theorem option_names_unique (calls : List set_call) (s : List option_opt_t)
    (hreach : run_sets calls [] = some s) :
    s.Pairwise (fun a b => ¬ eq_nocase a.opt b.opt)
      ∧ optscnt s = distinct_names calls
      ∧ (∀ opt value, get_option_value s opt ≠ none →
          ∃ s', run_sets (calls ++ [(some opt, some value)]) [] = some s'
            ∧ optscnt s' = optscnt s)
      ∧ (∀ opt value, get_option_value s opt = none → optscnt s < OPTIONS_SIZE →
          ∃ s', run_sets (calls ++ [(some opt, some value)]) [] = some s'
            ∧ optscnt s' = optscnt s + 1) := by
  obtain ⟨hnodup, hnames⟩ := run_sets_reached calls s hreach
  refine ⟨?_, ?_, ?_, ?_⟩
  · have h := List.pairwise_map.mp hnodup
    exact h
  · rw [optscnt_eq_card s hnodup, hnames]
    rfl
  · intro opt value hset
    obtain ⟨s', hs', hcount, _⟩ := set_option_value_in_bounds s opt value (Or.inr hset)
    exact ⟨s', by rw [run_sets_snoc, hreach]; exact hs', hcount hset⟩
  · intro opt value hnew hroom
    obtain ⟨s', hs', _, hcount⟩ := set_option_value_in_bounds s opt value (Or.inl hroom)
    exact ⟨s', by rw [run_sets_snoc, hreach]; exact hs', hcount hnew⟩

/-- C16 for three calls that write two distinct names. -/
theorem option_names_unique_witness :
    run_sets [(some "color", some "on"), (some "syntax", some "on"),
        (some "COLOR", some "off")] []
        = some [{ type := option_type.SETTING, opt := "color", value := "off" },
            { type := option_type.SETTING, opt := "syntax", value := "on" }]
      ∧ optscnt [{ type := option_type.SETTING, opt := "color", value := "off" },
            { type := option_type.SETTING, opt := "syntax", value := "on" }]
          = distinct_names [(some "color", some "on"), (some "syntax", some "on"),
              (some "COLOR", some "off")] :=
  ⟨by decide,
    (option_names_unique [(some "color", some "on"), (some "syntax", some "on"),
      (some "COLOR", some "off")] _ (by decide)).2.1⟩

/-! ## `init_options` with configuration files -/

theorem read_line_setting (o : List option_opt_t) (type option value : String) :
    read_line o (conf_line.setting type option value)
      = if strcasecmp type "set" = 0 then set_option_value o (some option) (some value)
        else if strcasecmp type "ignore" = 0 then set_ignore_value o option value
        else some o := rfl

theorem read_line_in_bounds (o : List option_opt_t) (l : conf_line)
    (h : optscnt o < OPTIONS_SIZE) :
    ∃ o', read_line o l = some o' ∧ optscnt o' ≤ optscnt o + 1 := by
  cases l with
  | blank => exact ⟨o, rfl, Nat.le_succ _⟩
  | other => exact ⟨o, rfl, Nat.le_succ _⟩
  | setting type option value =>
    rw [read_line_setting]
    split
    · obtain ⟨o', ho', hsame, hnew⟩ := set_option_value_in_bounds o option value (Or.inl h)
      refine ⟨o', ho', ?_⟩
      cases hg : get_option_value o option with
      | none => rw [hnew hg]
      | some w => rw [hsame (by rw [hg]; simp)]; exact Nat.le_succ _
    · split
      · unfold set_ignore_value
        rw [if_pos h]
        exact ⟨_, rfl, by simp [optscnt]⟩
      · exact ⟨o, rfl, Nat.le_succ _⟩

theorem read_lines_in_bounds (ls : List conf_line) :
    ∀ o, optscnt o + ls.length ≤ OPTIONS_SIZE →
      ∃ o', read_lines o ls = some o' ∧ optscnt o' ≤ optscnt o + ls.length := by
  induction ls with
  | nil => intro o _; exact ⟨o, rfl, Nat.le_refl _⟩
  | cons l rest ih =>
    intro o h
    simp only [List.length_cons] at h
    obtain ⟨o1, ho1, hc1⟩ := read_line_in_bounds o l (by omega)
    obtain ⟨o2, ho2, hc2⟩ := ih o1 (by omega)
    refine ⟨o2, ?_, ?_⟩
    · simp only [read_lines, ho1, Option.some_bind, ho2]
    · simp only [List.length_cons]
      omega

theorem read_lines_append (a b : List conf_line) :
    ∀ o, read_lines o (a ++ b) = (read_lines o a).bind fun o' => read_lines o' b := by
  induction a with
  | nil => intro o; rfl
  | cons l rest ih =>
    intro o
    show (read_line o l).bind (fun o1 => read_lines o1 (rest ++ b))
      = ((read_line o l).bind fun o1 => read_lines o1 rest).bind fun o' => read_lines o' b
    cases read_line o l with
    | none => rfl
    | some o1 => exact ih o1

theorem read_line_keeps_unset (o o' : List option_opt_t) (l : conf_line) (k : String)
    (h : read_line o l = some o') (hn : ¬ line_names l k)
    (hg : get_option_value o k = none) : get_option_value o' k = none := by
  cases l with
  | blank => cases h; exact hg
  | other => cases h; exact hg
  | setting type option value =>
    have hne : ¬ eq_nocase k option := fun hk => hn (eq_nocase_symm hk)
    rw [read_line_setting] at h
    split at h
    · rw [get_after_set o o' option value k h, if_neg hne]
      exact hg
    · split at h
      · unfold set_ignore_value at h
        split at h
        · cases h
          rw [get_option_value_append, hg]
          simp only
          rw [get_option_value_cons, if_neg hne]
          rfl
        · cases h
      · cases h; exact hg

theorem read_lines_keeps_unset (ls : List conf_line) (k : String) :
    ∀ o o', read_lines o ls = some o' → (∀ l ∈ ls, ¬ line_names l k) →
      get_option_value o k = none → get_option_value o' k = none := by
  induction ls with
  | nil =>
    intro o o' h _ hg
    cases h
    exact hg
  | cons l rest ih =>
    intro o o' h hn hg
    simp only [read_lines] at h
    cases h1 : read_line o l with
    | none => rw [h1] at h; cases h
    | some o1 =>
      rw [h1, Option.some_bind] at h
      exact ih o1 o' h (fun l' hl' => hn l' (List.mem_cons_of_mem _ hl'))
        (read_line_keeps_unset o o1 l k h1 (hn l (List.mem_cons_self _ _)) hg)

theorem read_options_fst (fs : String → Option (List conf_line)) (o : List option_opt_t)
    (path : String) :
    (read_options fs o path).map Prod.fst = read_lines o (file_lines fs path) := by
  unfold read_options file_lines
  cases fs path with
  | none => rfl
  | some lines =>
    simp only [Option.map_map]
    cases read_lines o lines <;> rfl

theorem read_userconf_eq (fs : String → Option (List conf_line)) (home : Option String)
    (o : List option_opt_t) (hfit : userconf_fits home) :
    read_userconf fs home o = read_lines o (userconf_lines fs home) := by
  cases home with
  | none => rfl
  | some h =>
    have hfit' : h.length + 10 + 1 ≤ USERCONF_SIZE := hfit
    simp only [read_userconf, hfit', if_true, read_options_fst, userconf_lines]

theorem read_userconf_fits (fs : String → Option (List conf_line)) (home : Option String)
    (o o' : List option_opt_t) (h : read_userconf fs home o = some o') :
    userconf_fits home := by
  cases home with
  | none => trivial
  | some hm =>
    unfold read_userconf at h
    simp only at h
    split at h
    · assumption
    · cases h

/-- With a path $HOME/.sngreprc that fits its buffer, the store after the configuration
files is the store of the defaults with the lines of the files read in order. -/
theorem options_after_files_eq (fs : String → Option (List conf_line))
    (home : Option String) (options : List option_opt_t) (hfit : userconf_fits home) :
    options_after_files fs home options
      = (run_sets (default_calls home) options).bind
          fun o => read_lines o (config_lines fs home) := by
  unfold options_after_files config_lines
  cases run_sets (default_calls home) options with
  | none => rfl
  | some s0 =>
    simp only [Option.some_bind, read_options_fst, read_lines_append]
    cases read_lines s0 (file_lines fs "/etc/sngreprc") with
    | none => rfl
    | some o1 =>
      simp only [Option.some_bind]
      cases read_lines o1 (file_lines fs "/usr/local/etc/sngreprc") with
      | none => rfl
      | some o2 =>
        simp only [Option.some_bind]
        exact read_userconf_eq fs home o2 hfit

/-- `init_options` is the store after the configuration files followed by the default of
`sngrep.displayhost`, and its result is 0. -/
theorem init_options_after_files (fs : String → Option (List conf_line))
    (home : Option String) (options : List option_opt_t) :
    init_options fs home options
      = ((options_after_files fs home options).bind
          (fun o =>
            if get_option_value o "sngrep.displayhost" = none then
              set_option_value o (some "sngrep.displayhost")
                (some (if is_option_enabled o "capture.lookup" ≠ 0 then "on" else "off"))
            else some o)).map (fun o => (o, 0)) := rfl

/-- The defaults of `init_options` run to a store of at most 39 entries that has no value
for `sngrep.displayhost`. -/
theorem default_calls_run (home : Option String) :
    ∃ s0, run_sets (default_calls home) [] = some s0 ∧ optscnt s0 ≤ 39
      ∧ get_option_value s0 "sngrep.displayhost" = none := by
  have hlen : (default_calls home).length = 39 := by
    simp [default_calls, defaults_before_savepath, defaults_after_savepath]
  have hcap : distinct_names (default_calls home) ≤ OPTIONS_SIZE := by
    refine le_trans (distinct_names_le_length _) ?_
    rw [hlen]
    decide
  obtain ⟨s0, hrun, hnodup, hnames, hget⟩ := run_sets_invariant _ hcap
  refine ⟨s0, hrun, ?_, ?_⟩
  · rw [optscnt_eq_card s0 hnodup, hnames, ← hlen]
    exact distinct_names_le_length _
  · rw [hget]
    unfold default_calls
    rw [last_write_skip _ _ _ _ _ (by decide)]
    decide

theorem options_after_files_fits (fs : String → Option (List conf_line))
    (home : Option String) (options o : List option_opt_t)
    (h : options_after_files fs home options = some o) : userconf_fits home := by
  unfold options_after_files at h
  obtain ⟨o2, _, h2⟩ := Option.bind_eq_some.mp h
  exact read_userconf_fits fs home o2 o h2

theorem displayhost_step (o s : List option_opt_t)
    (h : (if get_option_value o "sngrep.displayhost" = none then
            set_option_value o (some "sngrep.displayhost")
              (some (if is_option_enabled o "capture.lookup" ≠ 0 then "on" else "off"))
          else some o) = some s) :
    get_option_value s "sngrep.displayhost" ≠ none
      ∧ (get_option_value o "sngrep.displayhost" = none →
          (is_option_enabled s "sngrep.displayhost" = 1
            ↔ is_option_enabled o "capture.lookup" = 1)) := by
  by_cases hg : get_option_value o "sngrep.displayhost" = none
  · rw [if_pos hg] at h
    have hget := get_after_set o s "sngrep.displayhost" _ "sngrep.displayhost" h
    rw [if_pos (eq_nocase_refl _)] at hget
    refine ⟨by rw [hget]; simp, fun _ => ?_⟩
    rcases is_option_enabled_zero_or_one o "capture.lookup" with h0 | h1
    · have hoff : get_option_value s "sngrep.displayhost" = some "off" := by
        rw [hget, h0]; rfl
      have hen : is_option_enabled s "sngrep.displayhost" = 0 := by
        rw [is_option_enabled_of_value s _ "off" hoff]; decide
      simp [hen, h0]
    · have hon : get_option_value s "sngrep.displayhost" = some "on" := by
        rw [hget, h1]; rfl
      have hen : is_option_enabled s "sngrep.displayhost" = 1 := by
        rw [is_option_enabled_of_value s _ "on" hon]; decide
      simp [hen, h1]
  · rw [if_neg hg] at h
    cases h
    exact ⟨hg, fun hnone => absurd hnone hg⟩

/-- C13: whenever `init_options`, started on the empty store, returns, whatever the
configuration files hold, it returns 0 and `sngrep.displayhost` has a value; when no line
of the configuration files names `sngrep.displayhost`, that value is enabled if and only
if `capture.lookup` is enabled in the store as it is once the configuration files have
been read. And `init_options` does return when the path $HOME/.sngreprc fits its buffer
and the defaults and the lines of the files fit the array `options`. -/
theorem init_options_displayhost (fs : String → Option (List conf_line))
    (home : Option String) :
    (∀ s r, init_options fs home [] = some (s, r) →
        r = 0 ∧ get_option_value s "sngrep.displayhost" ≠ none
          ∧ ((∀ l ∈ config_lines fs home, ¬ line_names l "sngrep.displayhost") →
              ∃ o, options_after_files fs home [] = some o
                ∧ (is_option_enabled s "sngrep.displayhost" = 1
                    ↔ is_option_enabled o "capture.lookup" = 1)))
      ∧ (userconf_fits home → (config_lines fs home).length + 40 ≤ OPTIONS_SIZE →
          ∃ s, init_options fs home [] = some (s, 0)) := by
  constructor
  · intro s r h
    rw [init_options_after_files] at h
    cases hof : options_after_files fs home [] with
    | none => rw [hof] at h; cases h
    | some o =>
      rw [hof, Option.some_bind] at h
      obtain ⟨s1, hs1, hpair⟩ := Option.map_eq_some'.mp h
      have hs : s1 = s := congrArg Prod.fst hpair
      have hr : (0 : Int) = r := congrArg Prod.snd hpair
      subst hs
      obtain ⟨hval, hiff⟩ := displayhost_step o s1 hs1
      refine ⟨hr.symm, hval, fun hno => ⟨o, rfl, hiff ?_⟩⟩
      have hfit := options_after_files_fits fs home [] o hof
      rw [options_after_files_eq fs home [] hfit] at hof
      obtain ⟨s0, hrun, _, hdh⟩ := default_calls_run home
      rw [hrun, Option.some_bind] at hof
      exact read_lines_keeps_unset _ _ s0 o hof hno hdh
  · intro hfit hcap
    obtain ⟨s0, hrun, hcount, _⟩ := default_calls_run home
    obtain ⟨o, ho, hco⟩ := read_lines_in_bounds (config_lines fs home) s0 (by omega)
    have hof : options_after_files fs home [] = some o := by
      rw [options_after_files_eq fs home [] hfit, hrun, Option.some_bind, ho]
    rw [init_options_after_files, hof, Option.some_bind]
    by_cases hg : get_option_value o "sngrep.displayhost" = none
    · rw [if_pos hg]
      obtain ⟨s, hs, _, _⟩ := set_option_value_in_bounds o "sngrep.displayhost"
        (if is_option_enabled o "capture.lookup" ≠ 0 then "on" else "off")
        (Or.inl (by omega))
      exact ⟨s, by rw [hs]; rfl⟩
    · rw [if_neg hg]
      exact ⟨o, rfl⟩

/-- C13 for a file /etc/sngreprc that switches `capture.lookup` on: `init_options`
returns 0 and `sngrep.displayhost` is enabled. -/
theorem init_options_displayhost_witness :
    userconf_fits (some "/home/kaian")
      ∧ (config_lines sample_fs (some "/home/kaian")).length + 40 ≤ OPTIONS_SIZE
      ∧ (∃ s, init_options sample_fs (some "/home/kaian") [] = some (s, 0))
      ∧ (init_options sample_fs (some "/home/kaian") []).map
            (fun p => is_option_enabled p.1 "sngrep.displayhost") = some 1 :=
  ⟨by decide, by decide,
    (init_options_displayhost sample_fs (some "/home/kaian")).2 (by decide) (by decide),
    by decide⟩

end Sngrep
